import Mathlib

/-!
# Script compiler: the header/footer state machine of `Compiler::FileParser`

A shallow embedding of `components/compiler/fileparser.cpp`.  The parser object is
the pair of its own members (`mState`, `mName`); every call it makes on a
collaborator (error handler, scanner, embedded `ScriptParser`, base `Parser`) is
recorded, in order, in an effect trace returned next to the new parser value.
-/

namespace Compiler

/-- Source location of a token (`tokenloc.hpp`): column, line and the literal text. -/
structure TokenLoc where
  mColumn : Int
  mLine : Int
  mLiteral : String
deriving DecidableEq, Repr

/-- The enumerators of `Scanner` that `fileparser.cpp` refers to.  Their numeric values are
declared in `scanner.hpp`, so the scanner handed to a callback carries them as fields. -/
structure Scanner where
  K_begin : Int
  S_newline : Int
deriving DecidableEq, Repr

/-- The `State` enumeration of `FileParser`, in declaration order. -/
inductive State where
  | BeginState
  | NameState
  | BeginCompleteState
  | EndNameState
  | EndCompleteState
deriving DecidableEq, Repr

/-- One call of the scanner on the parser: the callback together with its arguments. -/
inductive Callback where
  | parseName (name : String) (loc : TokenLoc)
  | parseKeyword (keyword : Int) (loc : TokenLoc)
  | parseSpecial (code : Int) (loc : TokenLoc)
  | parseEOF
  /-- An integer literal: `parseInt (value, loc, scanner)`. -/
  | parseInt (value : Int) (loc : TokenLoc)
  /-- A float literal: `parseFloat (value, loc, scanner)`; the value is kept as its bit pattern,
  no handler looks at it. -/
  | parseFloat (value : Nat) (loc : TokenLoc)
deriving DecidableEq, Repr

/-- Calls made by `FileParser` on its collaborators, in the order they happen. -/
inductive Effect where
  /-- A call of `reportWarning (message, loc)`. -/
  | reportWarning (message : String) (loc : TokenLoc)
  /-- The error a default handler of the base `Parser` reports for the given callback. -/
  | reportError (cause : Callback)
  /-- A call of `scanner.allowNameStartingwithDigit()`. -/
  | allowNameStartingwithDigit
  /-- A call of `mScriptParser.reset()`. -/
  | scriptParserReset
  /-- A call of `scanner.scan (mScriptParser)`: the nested scan that compiles the body. -/
  | scanScriptParser
  /-- A call of `Parser::reset()`. -/
  | parserReset
deriving DecidableEq, Repr

/-- The members of `FileParser` that its callbacks read and write. -/
structure FileParser where
  mState : State
  mName : String
deriving DecidableEq, Repr

/-- What a member function leaves behind: return value, parser, collaborator calls. -/
structure Result (α : Type) where
  ret : α
  parser : FileParser
  effects : List Effect
deriving DecidableEq, Repr

/-- Modelled from the spec: `Parser::parseName` of the base parser (`parser.cpp` is not among
the sources).  Default behaviour of every callback: report a syntax error at the token's
location and return true (consumed). -/
def Parser.parseName (name : String) (loc : TokenLoc) (_scanner : Scanner) : Bool × List Effect :=
  (true, [Effect.reportError (Callback.parseName name loc)])

/-- Modelled from the spec: `Parser::parseKeyword` of the base parser (`parser.cpp` is not among
the sources): report a syntax error at the token's location and return true (consumed). -/
def Parser.parseKeyword (keyword : Int) (loc : TokenLoc) (_scanner : Scanner) :
    Bool × List Effect :=
  (true, [Effect.reportError (Callback.parseKeyword keyword loc)])

/-- Modelled from the spec: `Parser::parseSpecial` of the base parser (`parser.cpp` is not among
the sources): report a syntax error at the token's location and return true (consumed). -/
def Parser.parseSpecial (code : Int) (loc : TokenLoc) (_scanner : Scanner) : Bool × List Effect :=
  (true, [Effect.reportError (Callback.parseSpecial code loc)])

/-- Modelled from the spec: `Parser::parseEOF` of the base parser (`parser.cpp` is not among the
sources): end of input reached by a parser that is not done is reported as an error. -/
def Parser.parseEOF (_scanner : Scanner) : List Effect :=
  [Effect.reportError Callback.parseEOF]

/-- Modelled from the spec: `Parser::parseInt` of the base parser (`parser.cpp` is not among the
sources): report a syntax error at the token's location and return true (consumed). -/
def Parser.parseInt (value : Int) (loc : TokenLoc) (_scanner : Scanner) : Bool × List Effect :=
  (true, [Effect.reportError (Callback.parseInt value loc)])

/-- Modelled from the spec: `Parser::parseFloat` of the base parser (`parser.cpp` is not among
the sources): report a syntax error at the token's location and return true (consumed). -/
def Parser.parseFloat (value : Nat) (loc : TokenLoc) (_scanner : Scanner) : Bool × List Effect :=
  (true, [Effect.reportError (Callback.parseFloat value loc)])

namespace FileParser

/-- The constructor: `mState (BeginState)`, `mName` default-constructed (empty). -/
def new : FileParser :=
  { mState := State.BeginState, mName := "" }

/-- Embedding of `FileParser::getName`. -/
def getName (p : FileParser) : String :=
  p.mName

/-- Embedding of `FileParser::parseName`. -/
def parseName (p : FileParser) (name : String) (loc : TokenLoc) (scanner : Scanner) :
    Result Bool :=
  if p.mState = State.NameState then
    { ret := true, parser := { p with mName := name, mState := State.BeginCompleteState },
      effects := [] }
  else if p.mState = State.EndNameState then
    -- optional repeated name after end statement
    { ret := false, parser := { p with mState := State.EndCompleteState },
      effects :=
        if p.mName ≠ name then
          [Effect.reportWarning ("Names for script " ++ p.mName ++ " do not match") loc]
        else [] }
  else if p.mState = State.BeginCompleteState then
    { ret := true, parser := p,
      effects := [Effect.reportWarning ("Stray string (" ++ name ++ ") after begin statement") loc] }
  else
    { ret := (Parser.parseName name loc scanner).1, parser := p,
      effects := (Parser.parseName name loc scanner).2 }

/-- Embedding of `FileParser::parseKeyword`. -/
def parseKeyword (p : FileParser) (keyword : Int) (loc : TokenLoc) (scanner : Scanner) :
    Result Bool :=
  if p.mState = State.BeginState ∧ keyword = scanner.K_begin then
    { ret := true, parser := { p with mState := State.NameState },
      effects := [Effect.allowNameStartingwithDigit] }
  else if p.mState = State.NameState then
    -- keywords can be used as script names too
    { ret := true, parser := { p with mName := loc.mLiteral, mState := State.BeginCompleteState },
      effects := [] }
  else if p.mState = State.EndNameState then
    -- optional repeated name after end statement
    { ret := false, parser := { p with mState := State.EndCompleteState },
      effects :=
        if p.mName ≠ loc.mLiteral then
          [Effect.reportWarning ("Names for script " ++ p.mName ++ " do not match") loc]
        else [] }
  else
    { ret := (Parser.parseKeyword keyword loc scanner).1, parser := p,
      effects := (Parser.parseKeyword keyword loc scanner).2 }

/-- Embedding of `FileParser::parseSpecial`. -/
def parseSpecial (p : FileParser) (code : Int) (loc : TokenLoc) (scanner : Scanner) :
    Result Bool :=
  let base : Result Bool :=
    { ret := (Parser.parseSpecial code loc scanner).1, parser := p,
      effects := (Parser.parseSpecial code loc scanner).2 }
  if code = scanner.S_newline then
    if p.mState = State.BeginState then
      -- ignore empty lines
      { ret := true, parser := p, effects := [] }
    else if p.mState = State.BeginCompleteState then
      -- parse the script body
      { ret := true, parser := { p with mState := State.EndNameState },
        effects := [Effect.scriptParserReset, Effect.scanScriptParser,
                    Effect.allowNameStartingwithDigit] }
    else if p.mState = State.EndCompleteState ∨ p.mState = State.EndNameState then
      -- we are done here -> ignore the rest of the script
      { ret := false, parser := p, effects := [] }
    else base
  else base

/-- Embedding of `FileParser::parseEOF`. -/
def parseEOF (p : FileParser) (scanner : Scanner) : Result Unit :=
  if p.mState ≠ State.EndNameState ∧ p.mState ≠ State.EndCompleteState then
    { ret := (), parser := p, effects := Parser.parseEOF scanner }
  else
    { ret := (), parser := p, effects := [] }

/-- The callback `parseInt` of a `FileParser`: `fileparser.cpp` defines none, the one of the base
`Parser` is inherited. -/
def parseInt (p : FileParser) (value : Int) (loc : TokenLoc) (scanner : Scanner) : Result Bool :=
  { ret := (Parser.parseInt value loc scanner).1, parser := p,
    effects := (Parser.parseInt value loc scanner).2 }

/-- The callback `parseFloat` of a `FileParser`: `fileparser.cpp` defines none, the one of the
base `Parser` is inherited. -/
def parseFloat (p : FileParser) (value : Nat) (loc : TokenLoc) (scanner : Scanner) :
    Result Bool :=
  { ret := (Parser.parseFloat value loc scanner).1, parser := p,
    effects := (Parser.parseFloat value loc scanner).2 }

/-- Embedding of `FileParser::reset`. -/
def reset (p : FileParser) : Result Unit :=
  { ret := (), parser := { p with mState := State.BeginState, mName := "" },
    effects := [Effect.scriptParserReset, Effect.parserReset] }

end FileParser

/-- A callback as seen by the caller: `ret` is `none` for the `void` callback `parseEOF`. -/
abbrev Step := Result (Option Bool)

/-- Dispatch of one scanner call to the member function of the same name. -/
def call (scanner : Scanner) (p : FileParser) : Callback → Step
  | Callback.parseName name loc =>
      let r := p.parseName name loc scanner
      { ret := some r.ret, parser := r.parser, effects := r.effects }
  | Callback.parseKeyword keyword loc =>
      let r := p.parseKeyword keyword loc scanner
      { ret := some r.ret, parser := r.parser, effects := r.effects }
  | Callback.parseSpecial code loc =>
      let r := p.parseSpecial code loc scanner
      { ret := some r.ret, parser := r.parser, effects := r.effects }
  | Callback.parseEOF =>
      let r := p.parseEOF scanner
      { ret := none, parser := r.parser, effects := r.effects }
  | Callback.parseInt value loc =>
      let r := p.parseInt value loc scanner
      { ret := some r.ret, parser := r.parser, effects := r.effects }
  | Callback.parseFloat value loc =>
      let r := p.parseFloat value loc scanner
      { ret := some r.ret, parser := r.parser, effects := r.effects }

/-- A sequence of callbacks applied one after the other to the same parser object: the return
values in call order, the final parser and all collaborator calls in order. -/
def run (scanner : Scanner) (p : FileParser) : List Callback → Result (List (Option Bool))
  | [] => { ret := [], parser := p, effects := [] }
  | c :: cs =>
      let r := call scanner p c
      let rest := run scanner r.parser cs
      { ret := r.ret :: rest.ret, parser := rest.parser, effects := r.effects ++ rest.effects }

/-- The messages of the warnings in an effect trace, in order. -/
def warnings : List Effect → List String
  | [] => []
  | Effect.reportWarning message _ :: es => message :: warnings es
  | _ :: es => warnings es

/-- The callbacks for which an error was reported in an effect trace, in order. -/
def errors : List Effect → List Callback
  | [] => []
  | Effect.reportError cause :: es => cause :: errors es
  | _ :: es => errors es

/-- Position of a state in the declaration order of the enumeration. -/
def State.rank : State → Nat
  | State.BeginState => 0
  | State.NameState => 1
  | State.BeginCompleteState => 2
  | State.EndNameState => 3
  | State.EndCompleteState => 4

/-- The text `s` occurs in the text `msg`. -/
def mentions (msg s : String) : Prop :=
  List.IsInfix s.data msg.data

/-- Number of callbacks of a sequence after which `getName()` differs from what it was before
the callback. -/
def nameChanges (scanner : Scanner) (p : FileParser) : List Callback → Nat
  | [] => 0
  | c :: cs =>
      (if (call scanner p c).parser.getName ≠ p.getName then 1 else 0) +
        nameChanges scanner (call scanner p c).parser cs

/-- The default handler of the base parser called once with the arguments of the callback, the
parser left as it was. -/
def defaultCall (scanner : Scanner) (p : FileParser) : Callback → Step
  | Callback.parseName name loc =>
      { ret := some (Parser.parseName name loc scanner).1, parser := p,
        effects := (Parser.parseName name loc scanner).2 }
  | Callback.parseKeyword keyword loc =>
      { ret := some (Parser.parseKeyword keyword loc scanner).1, parser := p,
        effects := (Parser.parseKeyword keyword loc scanner).2 }
  | Callback.parseSpecial code loc =>
      { ret := some (Parser.parseSpecial code loc scanner).1, parser := p,
        effects := (Parser.parseSpecial code loc scanner).2 }
  | Callback.parseEOF =>
      { ret := none, parser := p, effects := Parser.parseEOF scanner }
  | Callback.parseInt value loc =>
      { ret := some (Parser.parseInt value loc scanner).1, parser := p,
        effects := (Parser.parseInt value loc scanner).2 }
  | Callback.parseFloat value loc =>
      { ret := some (Parser.parseFloat value loc scanner).1, parser := p,
        effects := (Parser.parseFloat value loc scanner).2 }

/-- The transition table of the specification (section 4.3), read as a predicate: the rows other
than the last one (`any state | unrecognized token`), and the states in which end of input is
success. -/
def specTableRule (scanner : Scanner) : State → Callback → Bool
  | State.BeginState, Callback.parseKeyword keyword _ => decide (keyword = scanner.K_begin)
  | State.BeginState, Callback.parseSpecial code _ => decide (code = scanner.S_newline)
  | State.NameState, Callback.parseName _ _ => true
  | State.NameState, Callback.parseKeyword _ _ => true
  | State.BeginCompleteState, Callback.parseSpecial code _ => decide (code = scanner.S_newline)
  | State.BeginCompleteState, Callback.parseName _ _ => true
  | State.EndNameState, Callback.parseName _ _ => true
  | State.EndNameState, Callback.parseKeyword _ _ => true
  | State.EndNameState, Callback.parseSpecial code _ => decide (code = scanner.S_newline)
  | State.EndCompleteState, Callback.parseSpecial code _ => decide (code = scanner.S_newline)
  | State.EndNameState, Callback.parseEOF => true
  | State.EndCompleteState, Callback.parseEOF => true
  | _, _ => false

/-- The effects of a callback before and after its call of `scanner.scan (mScriptParser)`;
`none` when the callback does not make that call. -/
def splitAtScan : List Effect → Option (List Effect × List Effect)
  | [] => none
  | Effect.scanScriptParser :: es => some ([], es)
  | e :: es =>
      match splitAtScan es with
      | some (before, after) => some (e :: before, after)
      | none => none

/-- Modelled from the spec: `Scanner::scan` and the scan of the body by the embedded
`ScriptParser` (`scanner.cpp` and `scriptparser.cpp` are not among the sources).  Spec 4.1: the
scanner dispatches each token to the currently active parser until that parser returns false
or input is exhausted; spec 2: the `FileParser` swaps control to the `ScriptParser` partway
through a compile, then resumes; spec 4.4: the `ScriptParser` parses the body delimited between
the header's trailing newline and the footer's terminator keyword; spec 7: input ending before
the footer is reached is an error.

The input is the list of the tokens, its end (or a `parseEOF` in it) the end of input; `K_end`
is the code of the terminator keyword.  With `some pending` the nested scan is running, `pending`
being what the interrupted `FileParser` callback still does after it; the diagnostics of the
statements of the body are not part of this model.  The result is the parser and the
collaborator calls when the scan of the file returns. -/
def scanFile (scanner : Scanner) (K_end : Int) :
    Option (List Effect) → FileParser → List Callback → Result Unit
  | some pending, p, [] =>
      { ret := (), parser := p,
        effects := Parser.parseEOF scanner ++ pending ++ (p.parseEOF scanner).effects }
  | some pending, p, Callback.parseEOF :: _ =>
      { ret := (), parser := p,
        effects := Parser.parseEOF scanner ++ pending ++ (p.parseEOF scanner).effects }
  | some pending, p, Callback.parseKeyword keyword _ :: rest =>
      if keyword = K_end then
        { ret := (), parser := (scanFile scanner K_end none p rest).parser,
          effects := pending ++ (scanFile scanner K_end none p rest).effects }
      else scanFile scanner K_end (some pending) p rest
  | some pending, p, _ :: rest => scanFile scanner K_end (some pending) p rest
  | none, p, [] => p.parseEOF scanner
  | none, p, c :: rest =>
      let r := call scanner p c
      if r.ret = some true then
        match splitAtScan r.effects with
        | some (before, after) =>
            { ret := (), parser := (scanFile scanner K_end (some after) r.parser rest).parser,
              effects := before ++ [Effect.scanScriptParser] ++
                (scanFile scanner K_end (some after) r.parser rest).effects }
        | none =>
            { ret := (), parser := (scanFile scanner K_end none r.parser rest).parser,
              effects := r.effects ++ (scanFile scanner K_end none r.parser rest).effects }
      else { ret := (), parser := r.parser, effects := r.effects }

end Compiler

/-!
# Terrain: land texture lookup, layers and blend maps of `MWRender::TerrainManager`

A shallow embedding of `getLtexIndexAt`, `initTerrainTextures` and `initTerrainBlendMaps` of
`apps/openmw/mwrender/terrain.cpp`.  A C++ `int` is an integer in the 32 bit range and every
`int` operation wraps around (`wrapInt`); a failed `assert`, a dereferenced null pointer and a
division by zero stop a function, which then has no result.
-/

namespace MWRender

/-- The part of `ESM::Land` that `getLtexIndexAt` reads: the entries of `landData->textures`
(of type `uint16_t`) by array index, as they are once `loadData()` has run. -/
structure Land where
  textures : Int → Nat

/-- What `terrain.cpp` takes from declarations and objects outside the file: the constant
`ESM::Land::LAND_TEXTURE_SIZE` and the lookups of the store of
`MWBase::Environment::get().getWorld()`. -/
structure Environment where
  /-- The constant `ESM::Land::LAND_TEXTURE_SIZE`. -/
  LAND_TEXTURE_SIZE : Int
  /-- The lookup `getStore().lands.search (cellX, cellY)`, `none` for a null pointer. -/
  lands : Int → Int → Option Land
  /-- The value of `getStore().landTexts.getSize()`. -/
  landTextsSize : Int
  /-- The field `texture` of `getStore().landTexts.search (index)`, `none` for a null pointer. -/
  landTexts : Int → Option String

/-- The value of an `int` expression whose exact value is `z`: the 32 bit two's complement
number congruent to `z`, which is what the compiled arithmetic yields on overflow. -/
def wrapInt (z : Int) : Int :=
  (z + 2147483648) % 4294967296 - 2147483648

/-- Embedding of `TerrainManager::getLtexIndexAt`. -/
def getLtexIndexAt (env : Environment) (cellX cellY x y : Int) : Option Int :=
  if ¬ (x ≥ wrapInt (-env.LAND_TEXTURE_SIZE) ∧ y ≥ wrapInt (-env.LAND_TEXTURE_SIZE)) then none
  else if ¬ (x < wrapInt (2 * env.LAND_TEXTURE_SIZE) ∧
      y < wrapInt (2 * env.LAND_TEXTURE_SIZE)) then none
  else
    let cx : Int × Int :=
      if x < 0 then (wrapInt (cellX - 1), wrapInt (x + env.LAND_TEXTURE_SIZE))
      else if x ≥ env.LAND_TEXTURE_SIZE then
        (wrapInt (cellX + 1), wrapInt (x - env.LAND_TEXTURE_SIZE))
      else (cellX, x)
    let cy : Int × Int :=
      if y < 0 then (wrapInt (cellY - 1), wrapInt (y + env.LAND_TEXTURE_SIZE))
      else if y ≥ env.LAND_TEXTURE_SIZE then
        (wrapInt (cellY + 1), wrapInt (y - env.LAND_TEXTURE_SIZE))
      else (cellY, y)
    match env.lands cx.1 cy.1 with
    | some land =>
        some (land.textures (wrapInt (wrapInt (cy.2 * env.LAND_TEXTURE_SIZE) + cx.2)) : Int)
    | none => some 0

/-- The integers `lo, lo + 1, ..., hi - 1` in order: the values a loop
`for (int i = lo; i < hi; i++)` runs through. -/
def intRange (lo hi : Int) : List Int :=
  (List.range (hi - lo).toNat).map (fun (i : Nat) => lo + (i : Int))

/-- The pairs `(x, y)` for which `initTerrainTextures` and `initTerrainBlendMaps` call
`getLtexIndexAt`, in call order: `y` from `fromY - 1` to `fromY + size`, and for each `y` the
`x` from `fromX - 1` to `fromX + size`. -/
def ltexWindow (fromX fromY size : Int) : List (Int × Int) :=
  (intRange (wrapInt (fromY - 1)) (wrapInt (wrapInt (fromY + size) + 1))).flatMap fun y =>
    (intRange (wrapInt (fromX - 1)) (wrapInt (wrapInt (fromX + size) + 1))).map fun x => (x, y)

/-- The operation `std::set<uint16_t>::insert`, the set being the ascending list of its
elements. -/
def setInsert (v : Nat) : List Nat → List Nat
  | [] => [v]
  | a :: as =>
      if v < a then v :: a :: as
      else if v = a then a :: as
      else a :: setInsert v as

/-- The operation `std::map<uint16_t, int>::find`, the map being the list of its (key, value)
pairs in ascending key order; `none` stands for `end()`. -/
def mapFind (k : Nat) : List (Nat × Int) → Option Int
  | [] => none
  | (a, w) :: m => if a = k then some w else mapFind k m

/-- The assignment `indexes[k] = v` on a `std::map<uint16_t, int>`. -/
def mapAssign (k : Nat) (v : Int) : List (Nat × Int) → List (Nat × Int)
  | [] => [(k, v)]
  | (a, w) :: m =>
      if k < a then (k, v) :: (a, w) :: m
      else if k = a then (a, v) :: m
      else (a, w) :: mapAssign k v m

/-- The fields of `Terrain::LayerInstance` that `initTerrainTextures` sets. -/
structure LayerInstance where
  worldSize : Int
  textureNames : List String
deriving DecidableEq, Repr

/-- Position of the last `.` in a text, `none` for `npos`: `texture.rfind (".")`. -/
def rfindDot : List Char → Option Nat
  | [] => none
  | c :: cs =>
      match rfindDot cs with
      | some i => some (i + 1)
      | none => if c = '.' then some 0 else none

/-- The expression `texture.substr (0, texture.rfind (".")) + ".dds"`. -/
def ddsName (texture : String) : String :=
  String.mk (match rfindDot texture.data with
    | some i => texture.data.take i
    | none => texture.data) ++ ".dds"

/-- The variables of the second loop of `initTerrainTextures`. -/
structure TextureState where
  baseTexture : Int
  layerList : List LayerInstance
  indexes : List (Nat × Int)
deriving DecidableEq, Repr

/-- One pass of the loop of `initTerrainTextures` over the set `ltexIndexes`. -/
def addLtexIndex (env : Environment) (st : TextureState) (ltexIndex : Nat) :
    Option TextureState :=
  if (ltexIndex : Int) = st.baseTexture then some st
  else
    match mapFind ltexIndex st.indexes with
    | some _ => some st
    | none =>
        if ¬ (env.landTextsSize ≥ (ltexIndex : Int) - 1) then none
        else
          match (if ltexIndex = 0 then some "_land_default.dds"
                 else (env.landTexts ((ltexIndex : Int) - 1)).map ddsName) with
          | none => none
          | some texture =>
              let position := st.layerList.length
              let layerList := st.layerList ++
                [{ worldSize := 256, textureNames := ["textures\\" ++ texture] }]
              if st.baseTexture = -1 then
                some { baseTexture := ltexIndex, layerList := layerList, indexes := st.indexes }
              else
                some { baseTexture := st.baseTexture, layerList := layerList,
                       indexes := mapAssign ltexIndex position st.indexes }

/-- The loop of `initTerrainTextures` over the set `ltexIndexes`, in ascending order. -/
def addLtexIndexes (env : Environment) : List Nat → TextureState → Option TextureState
  | [], st => some st
  | i :: is, st =>
      match addLtexIndex env st i with
      | none => none
      | some st1 => addLtexIndexes env is st1

/-- What a function leaves behind: the arguments `(x, y)` of its calls of `getLtexIndexAt`, in
call order, and its result, `none` when a failed assert or a null pointer stopped it. -/
structure Traced (α : Type) where
  calls : List (Int × Int)
  result : Option α

/-- The first loop of `initTerrainTextures`: every value `getLtexIndexAt` returns over the
window is converted to `uint16_t` and inserted into the set. -/
def collectLtexIndexes (env : Environment) (cellX cellY : Int) :
    List (Int × Int) → List Nat → Traced (List Nat)
  | [], s => { calls := [], result := some s }
  | (x, y) :: w, s =>
      match getLtexIndexAt env cellX cellY x y with
      | none => { calls := [(x, y)], result := none }
      | some v =>
          { calls := (x, y) ::
              (collectLtexIndexes env cellX cellY w (setInsert (v % 65536).toNat s)).calls,
            result :=
              (collectLtexIndexes env cellX cellY w (setInsert (v % 65536).toNat s)).result }

/-- Embedding of `TerrainManager::initTerrainTextures`: `layerList` is
`terrainData->layerList`; the result is the layer list and the map `indexes` after the call. -/
def initTerrainTextures (env : Environment) (layerList : List LayerInstance)
    (cellX cellY fromX fromY size : Int) (indexes : List (Nat × Int)) :
    Traced (List LayerInstance × List (Nat × Int)) :=
  if ¬ (fromX ≥ 0 ∧ fromY ≥ 0) then { calls := [], result := none }
  else if ¬ (wrapInt (fromX + size) ≤ env.LAND_TEXTURE_SIZE ∧
      wrapInt (fromY + size) ≤ env.LAND_TEXTURE_SIZE) then
    { calls := [], result := none }
  else
    let sampled := collectLtexIndexes env cellX cellY (ltexWindow fromX fromY size) []
    match sampled.result with
    | none => { calls := sampled.calls, result := none }
    | some ltexIndexes =>
        match addLtexIndexes env ltexIndexes
            { baseTexture := -1, layerList := layerList, indexes := indexes } with
        | none => { calls := sampled.calls, result := none }
        | some st => { calls := sampled.calls, result := some (st.layerList, st.indexes) }

/-- One assignment to `pBlend[index]` in `initTerrainBlendMaps`: the blend map of which layer,
the index, and whether the value written is `1` (`full`) or `min (1, pBlend[index] + 0.5)`. -/
structure BlendWrite where
  layerIndex : Int
  index : Int
  full : Bool
deriving DecidableEq, Repr

/-- The two innermost loops of `initTerrainBlendMaps` for one texture position. -/
def splatWrites (blendMapSize splatSize relX relY layerIndex : Int) : List BlendWrite :=
  (intRange (-1) (wrapInt (splatSize + 1))).flatMap fun y =>
    (intRange (-1) (wrapInt (splatSize + 1))).flatMap fun x =>
      let splatY :=
        wrapInt (wrapInt (wrapInt (blendMapSize - 1) - wrapInt (relY * splatSize)) - y)
      let splatX := wrapInt (wrapInt (relX * splatSize) + x)
      if splatX ≥ 0 ∧ splatX < blendMapSize ∧ splatY ≥ 0 ∧ splatY < blendMapSize then
        [{ layerIndex := layerIndex,
           index := wrapInt (wrapInt (splatY * blendMapSize) + splatX),
           full := decide (y ≥ 0 ∧ y < splatSize ∧ x ≥ 0 ∧ x < splatSize) }]
      else []

/-- What `initTerrainBlendMaps` leaves behind: the arguments `(x, y)` of its calls of
`getLtexIndexAt`, the assignments `pBlend[index] = ...` in the order they are made, and whether
it ran to its end (`false`: a failed assert or a division by zero stopped it). -/
structure BlendRun where
  calls : List (Int × Int)
  writes : List BlendWrite
  completed : Bool
deriving DecidableEq, Repr

/-- The loop of `initTerrainBlendMaps` over the window. -/
def blendWrites (env : Environment) (blendMapSize splatSize cellX cellY fromX fromY : Int)
    (indexes : List (Nat × Int)) : List (Int × Int) → BlendRun
  | [] => { calls := [], writes := [], completed := true }
  | (texX, texY) :: w =>
      match getLtexIndexAt env cellX cellY texX texY with
      | none => { calls := [(texX, texY)], writes := [], completed := false }
      | some v =>
          let rest := blendWrites env blendMapSize splatSize cellX cellY fromX fromY indexes w
          match mapFind (v % 65536).toNat indexes with
          | none =>
              { calls := (texX, texY) :: rest.calls, writes := rest.writes,
                completed := rest.completed }
          | some layerIndex =>
              { calls := (texX, texY) :: rest.calls,
                writes := splatWrites blendMapSize splatSize (wrapInt (texX - fromX))
                  (wrapInt (texY - fromY)) layerIndex ++ rest.writes,
                completed := rest.completed }

/-- Embedding of `TerrainManager::initTerrainBlendMaps`: `blendMapSize` is
`terrain->getLayerBlendMapSize()`. -/
def initTerrainBlendMaps (env : Environment) (blendMapSize : Int)
    (cellX cellY fromX fromY size : Int) (indexes : List (Nat × Int)) : BlendRun :=
  if ¬ (fromX ≥ 0 ∧ fromY ≥ 0) then { calls := [], writes := [], completed := false }
  else if ¬ (wrapInt (fromX + size) ≤ env.LAND_TEXTURE_SIZE ∧
      wrapInt (fromY + size) ≤ env.LAND_TEXTURE_SIZE) then
    { calls := [], writes := [], completed := false }
  else if ¬ (Int.land size (wrapInt (size - 1)) = 0) then
    { calls := [], writes := [], completed := false }
  else if size = 0 then { calls := [], writes := [], completed := false }
  else
    blendWrites env blendMapSize (Int.tdiv blendMapSize size) cellX cellY fromX fromY indexes
      (ltexWindow fromX fromY size)

/-- The value `initTerrainTextures` inserts into the set `ltexIndexes` for the position
`(x, y) = xy`: what `getLtexIndexAt` returns there, converted to `uint16_t`. -/
def sampledLtexIndex (env : Environment) (cellX cellY : Int) (xy : Int × Int) : Nat :=
  (((getLtexIndexAt env cellX cellY xy.1 xy.2).getD 0) % 65536).toNat

/-- The texture file name `initTerrainTextures` gives the layer of an ltex index. -/
def layerTexture (env : Environment) (ltexIndex : Nat) : String :=
  if ltexIndex = 0 then "_land_default.dds"
  else ((env.landTexts ((ltexIndex : Int) - 1)).map ddsName).getD ""

/-- The layer `initTerrainTextures` appends for an ltex index. -/
def layerOf (env : Environment) (ltexIndex : Nat) : LayerInstance :=
  { worldSize := 256, textureNames := ["textures\\" ++ layerTexture env ltexIndex] }

/-- The store knows the land texture of an ltex index: the assert on the size of `landTexts`
holds and, for an index other than 0, `landTexts.search (ltexIndex - 1)` is not null. -/
def landTextKnown (env : Environment) (ltexIndex : Nat) : Prop :=
  env.landTextsSize ≥ (ltexIndex : Int) - 1 ∧
    (ltexIndex = 0 ∨ (env.landTexts ((ltexIndex : Int) - 1)).isSome = true)

instance (env : Environment) (ltexIndex : Nat) : Decidable (landTextKnown env ltexIndex) := by
  unfold landTextKnown
  infer_instance

/-- A small world for concrete evaluation: texture grid of size 2, land data only for the cell
(0, 0), whose entry at index `i` is `i + 3`, and ten land textures named `tx_sand.tga`. -/
def exampleEnvironment : Environment :=
  { LAND_TEXTURE_SIZE := 2,
    lands := fun cellX cellY =>
      if cellX = 0 ∧ cellY = 0 then some { textures := fun i => i.toNat + 3 } else none,
    landTextsSize := 10,
    landTexts := fun i => if 0 ≤ i ∧ i < 10 then some "tx_sand.tga" else none }

/-- A world for concrete evaluation with texture grid of size 16 whose only land is that of the
cell `(2147483647, 0)`, every entry of which is 42. -/
def farCellEnvironment : Environment :=
  { LAND_TEXTURE_SIZE := 16,
    lands := fun cellX cellY =>
      if cellX = 2147483647 ∧ cellY = 0 then some { textures := fun _ => 42 } else none,
    landTextsSize := 0,
    landTexts := fun _ => none }

/-- A world for concrete evaluation with texture grid of size `2^17` in which every cell has
land whose entry is 42 at index 0 and 0 elsewhere. -/
def wideGridEnvironment : Environment :=
  { LAND_TEXTURE_SIZE := 131072,
    lands := fun _ _ => some { textures := fun i => if i = 0 then 42 else 0 },
    landTextsSize := 0,
    landTexts := fun _ => none }

/-- A world for concrete evaluation with texture grid of size `2^30` and no land. -/
def hugeGridEnvironment : Environment :=
  { LAND_TEXTURE_SIZE := 1073741824,
    lands := fun _ _ => none,
    landTextsSize := 0,
    landTexts := fun _ => none }

/-- A world for concrete evaluation with texture grid of size 16 and no land, so that every
sampled ltex index is 0. -/
def emptyEnvironment : Environment :=
  { LAND_TEXTURE_SIZE := 16,
    lands := fun _ _ => none,
    landTextsSize := 0,
    landTexts := fun _ => none }

end MWRender

/-!
# Message boxes: `MWGui::MessageBoxManager`

A shallow embedding of `onFrame`, `createMessageBox` and the two `removeMessageBox` of
`apps/openmw/mwgui/messagebox.cpp`.  A `MessageBox*` is the address of the box, a natural
number, and the manager carries `live`, the addresses at which a `MessageBox` exists (it has
been constructed there and not been deleted since), and `marked`, the addresses of the existing
boxes whose `mMarkedToDelete` is true.  A call has a result only when its behaviour is defined:
the functions return an `Option`, and the result is `none` when the code reads or writes a
member of a box that does not exist, calls `delete` on such a box, or dereferences `begin()` of
an empty vector.  The `float` type is a parameter together with the operations the code applies
to it, so that nothing depends on how floating point numbers round.  The layout calls
(`update`, `getHeight`) do not touch the lists; of them only the requirement that the box
exists is kept.
-/

namespace MWGui

/-- The `float` operations of `messagebox.cpp`, on a carrier `F` for the `float` values. -/
structure FloatOps (F : Type) where
  /-- The constant 0 of `timer.current = 0`. -/
  zero : F
  /-- The constant 0.1 of `mMessageBoxSpeed = 0.1`. -/
  tenth : F
  /-- The sum of `it->current += frameDuration`. -/
  add : F → F → F
  /-- The comparison `it->current >= it->max`. -/
  ge : F → F → Bool
  /-- The product `message.length()*mMessageBoxSpeed`. -/
  lengthTimes : Nat → F → F

/-- The struct `MessageBoxManagerTimer`. -/
structure MessageBoxManagerTimer (F : Type) where
  current : F
  max : F
  messageBox : Nat
deriving DecidableEq, Repr

/-- The members of `MessageBoxManager` that the functions below use, with the flags and the
existence of the boxes: `marked` holds the addresses of the boxes whose `mMarkedToDelete` is
true, `live` the addresses at which a box exists. -/
structure MessageBoxManager (F : Type) where
  mMessageBoxes : List Nat
  mTimers : List (MessageBoxManagerTimer F)
  mMessageBoxSpeed : F
  marked : List Nat
  live : List Nat
deriving DecidableEq, Repr

/-- The effect of `delete` of the box at the address `b` on a list of addresses (`live` or
`marked`): the address leaves the list. -/
def deleteBox (b : Nat) (l : List Nat) : List Nat :=
  l.filter (fun a => decide (a ≠ b))

namespace MessageBoxManager

/-- The constructor: no boxes, no timers, `mMessageBoxSpeed = 0.1`. -/
def new {F : Type} (ops : FloatOps F) : MessageBoxManager F :=
  { mMessageBoxes := [], mTimers := [], mMessageBoxSpeed := ops.tenth, marked := [], live := [] }

/-- The inner `while` loop of `onFrame` (lines 29-41) over the rest of the vector: the boxes
that stay, in their order, and `marked` and `live` after the loop.  Each step reads
`(*it2)->mMarkedToDelete` (line 31), which is defined only when the box exists; a marked box is
deleted and erased, another one is updated and kept. -/
def eraseMarked : List Nat → List Nat → List Nat → Option (List Nat × List Nat × List Nat)
  | [], marked, live => some ([], marked, live)
  | b :: bs, marked, live =>
      if b ∈ live then
        if b ∈ marked then eraseMarked bs (deleteBox b marked) (deleteBox b live)
        else
          match eraseMarked bs marked live with
          | some (rest, marked1, live1) => some (b :: rest, marked1, live1)
          | none => none
      else none

/-- The `for` loop of `onFrame` over `mTimers`: the timers that stay, the boxes, `marked` and
`live`.  For an expired timer line 21 writes the flag of `it->messageBox`, defined only when
that box exists, and line 23 dereferences `mMessageBoxes.begin()`, defined only when the vector
is not empty. -/
def onFrameLoop {F : Type} (ops : FloatOps F) (frameDuration : F) :
    List (MessageBoxManagerTimer F) → List Nat → List Nat → List Nat →
      Option (List (MessageBoxManagerTimer F) × List Nat × List Nat × List Nat)
  | [], boxes, marked, live => some ([], boxes, marked, live)
  | t :: ts, boxes, marked, live =>
      if ops.ge (ops.add t.current frameDuration) t.max = true then
        if t.messageBox ∈ live then
          match boxes with
          | [] => none
          | front :: rest =>
              if front = t.messageBox then
                match eraseMarked (front :: rest) (t.messageBox :: marked) live with
                | some (boxes1, marked1, live1) =>
                    onFrameLoop ops frameDuration ts boxes1 marked1 live1
                | none => none
              else onFrameLoop ops frameDuration ts (front :: rest) (t.messageBox :: marked) live
        else none
      else
        match onFrameLoop ops frameDuration ts boxes marked live with
        | some (ts1, r) => some ({ t with current := ops.add t.current frameDuration } :: ts1, r)
        | none => none

/-- Embedding of `MessageBoxManager::onFrame`. -/
def onFrame {F : Type} (ops : FloatOps F) (m : MessageBoxManager F) (frameDuration : F) :
    Option (MessageBoxManager F) :=
  match onFrameLoop ops frameDuration m.mTimers m.mMessageBoxes m.marked m.live with
  | some (timers, boxes, marked, live) =>
      some { m with mTimers := timers, mMessageBoxes := boxes, marked := marked, live := live }
  | none => none

/-- Embedding of `MessageBoxManager::removeMessageBox (float time, MessageBox *msgbox)`; the
pointer is stored and not dereferenced. -/
def removeMessageBoxAfter {F : Type} (ops : FloatOps F) (m : MessageBoxManager F) (time : F)
    (msgbox : Nat) : MessageBoxManager F :=
  { m with mTimers := m.mTimers ++ [{ current := ops.zero, max := time, messageBox := msgbox }] }

/-- Lines 63-66 of `createMessageBox` on the vector after `push_back`: the vector, `marked` and
`live` afterwards.  The `delete` of the front box is defined only when that box exists. -/
def dropOldest (boxes marked live : List Nat) : Option (List Nat × List Nat × List Nat) :=
  if boxes.length > 3 then
    match boxes with
    | [] => none
    | front :: rest =>
        if front ∈ live then some (rest, deleteBox front marked, deleteBox front live)
        else none
  else some (boxes, marked, live)

/-- Embedding of `MessageBoxManager::createMessageBox`; `box` is the address that
`new MessageBox (*this, message)` returns, the constructor clears `mMarkedToDelete` there.
There is no result when a box exists at `box` already, since `new` returns no such address,
nor when the loop of lines 69-73 meets a box that does not exist. -/
def createMessageBox {F : Type} (ops : FloatOps F) (m : MessageBoxManager F) (message : String)
    (box : Nat) : Option (MessageBoxManager F) :=
  if box ∈ m.live then none
  else
    let m1 := { m with marked := deleteBox box m.marked, live := m.live ++ [box] }
    let m2 := removeMessageBoxAfter ops m1
      (ops.lengthTimes message.utf8ByteSize m1.mMessageBoxSpeed) box
    match dropOldest (m2.mMessageBoxes ++ [box]) m2.marked m2.live with
    | some (boxes, marked, live) =>
        if (∀ b ∈ boxes, b ∈ live) then
          some { m2 with mMessageBoxes := boxes, marked := marked, live := live }
        else none
    | none => none

/-- The loop of `removeMessageBox (MessageBox *msgbox)`: the vector without the first element
equal to `msgbox`, `none` when there is no such element. -/
def eraseFirst (msgbox : Nat) : List Nat → Option (List Nat)
  | [] => none
  | b :: bs =>
      if b = msgbox then some bs
      else
        match eraseFirst msgbox bs with
        | some rest => some (b :: rest)
        | none => none

/-- Embedding of `MessageBoxManager::removeMessageBox (MessageBox *msgbox)`: the return value
and the manager after the call.  The loop compares addresses only; the `delete` of line 113 is
defined only when the box exists. -/
def removeMessageBox {F : Type} (m : MessageBoxManager F) (msgbox : Nat) :
    Option (Bool × MessageBoxManager F) :=
  match eraseFirst msgbox m.mMessageBoxes with
  | some rest =>
      if msgbox ∈ m.live then
        some (true, { m with mMessageBoxes := rest, marked := deleteBox msgbox m.marked,
                             live := deleteBox msgbox m.live })
      else none
  | none => some (false, m)

end MessageBoxManager

/-- One call on a `MessageBoxManager`. -/
inductive ManagerCall (F : Type) where
  | createMessageBox (message : String) (box : Nat)
  | onFrame (frameDuration : F)
  | removeMessageBox (msgbox : Nat)
  /-- The overload `removeMessageBox (float time, MessageBox *msgbox)`. -/
  | removeMessageBoxAfter (time : F) (msgbox : Nat)
deriving DecidableEq, Repr

/-- The manager after one call, `none` when the call has no defined behaviour. -/
def applyCall {F : Type} (ops : FloatOps F) (m : MessageBoxManager F) :
    ManagerCall F → Option (MessageBoxManager F)
  | ManagerCall.createMessageBox message box => m.createMessageBox ops message box
  | ManagerCall.onFrame frameDuration => m.onFrame ops frameDuration
  | ManagerCall.removeMessageBox msgbox => (m.removeMessageBox msgbox).map Prod.snd
  | ManagerCall.removeMessageBoxAfter time msgbox =>
      some (m.removeMessageBoxAfter ops time msgbox)

/-- The manager after a sequence of calls from the state `m`, `none` as soon as one call has no
defined behaviour. -/
def runFrom {F : Type} (ops : FloatOps F) :
    MessageBoxManager F → List (ManagerCall F) → Option (MessageBoxManager F)
  | m, [] => some m
  | m, c :: cs =>
      match applyCall ops m c with
      | some m1 => runFrom ops m1 cs
      | none => none

/-- The manager after a sequence of calls, starting from a newly constructed one. -/
def runCalls {F : Type} (ops : FloatOps F) (calls : List (ManagerCall F)) :
    Option (MessageBoxManager F) :=
  runFrom ops (MessageBoxManager.new ops) calls

/-- Integers in place of `float`, for concrete evaluation: time is counted in tenths, so the
constant 0.1 is the unit. -/
def exampleOps : FloatOps Int :=
  { zero := 0, tenth := 1, add := fun a b => a + b, ge := fun a b => decide (a ≥ b),
    lengthTimes := fun n s => (n : Int) * s }

end MWGui

/-!
# Script compiler: theorems
-/

namespace Compiler

/-! ## Helper lemmas -/

theorem mentions_stray (s : String) :
    mentions ("Stray string (" ++ s ++ ") after begin statement") s := by
  refine ⟨"Stray string (".data, ") after begin statement".data, ?_⟩
  simp [String.data_append]

theorem errors_if_warning (c : Prop) [Decidable c] (message : String) (loc : TokenLoc) :
    errors (if c then [] else [Effect.reportWarning message loc]) = [] := by
  split <;> simp [errors]

theorem call_rank_le (scanner : Scanner) (p : FileParser) (c : Callback) :
    p.mState.rank ≤ (call scanner p c).parser.mState.rank ∧
      (call scanner p c).parser.mState.rank ≤ p.mState.rank + 1 := by
  obtain ⟨st, nm⟩ := p
  cases c with
  | parseName name loc =>
      cases st <;> simp [call, FileParser.parseName, State.rank]
  | parseKeyword keyword loc =>
      by_cases hk : keyword = scanner.K_begin <;> cases st <;>
        simp [call, FileParser.parseKeyword, State.rank, hk]
  | parseSpecial code loc =>
      by_cases hc : code = scanner.S_newline <;> cases st <;>
        simp [call, FileParser.parseSpecial, State.rank, hc]
  | parseEOF =>
      cases st <;> simp [call, FileParser.parseEOF, State.rank]
  | parseInt value loc => simp [call, FileParser.parseInt]
  | parseFloat value loc => simp [call, FileParser.parseFloat]

theorem call_name_eq (scanner : Scanner) (p : FileParser) (c : Callback)
    (h : p.mState ≠ State.NameState) : (call scanner p c).parser.mName = p.mName := by
  obtain ⟨st, nm⟩ := p
  cases c with
  | parseName name loc =>
      cases st <;> simp_all [call, FileParser.parseName]
  | parseKeyword keyword loc =>
      by_cases hk : keyword = scanner.K_begin <;> cases st <;>
        simp_all [call, FileParser.parseKeyword]
  | parseSpecial code loc =>
      by_cases hc : code = scanner.S_newline <;> cases st <;>
        simp_all [call, FileParser.parseSpecial]
  | parseEOF =>
      cases st <;> simp_all [call, FileParser.parseEOF]
  | parseInt value loc => simp [call, FileParser.parseInt]
  | parseFloat value loc => simp [call, FileParser.parseFloat]

theorem call_name_eq_or_done (scanner : Scanner) (p : FileParser) (c : Callback) :
    (call scanner p c).parser.mName = p.mName ∨ 2 ≤ (call scanner p c).parser.mState.rank := by
  by_cases h : p.mState = State.NameState
  · obtain ⟨st, nm⟩ := p
    simp only at h
    subst h
    cases c with
    | parseName name loc => right; simp [call, FileParser.parseName, State.rank]
    | parseKeyword keyword loc => right; simp [call, FileParser.parseKeyword, State.rank]
    | parseSpecial code loc => left; simp [call, FileParser.parseSpecial]
    | parseEOF => left; simp [call, FileParser.parseEOF]
    | parseInt value loc => left; simp [call, FileParser.parseInt]
    | parseFloat value loc => left; simp [call, FileParser.parseFloat]
  · exact Or.inl (call_name_eq scanner p c h)

theorem rank_two_ne_name (st : State) (h : 2 ≤ st.rank) : st ≠ State.NameState := by
  cases st <;> simp_all [State.rank]

theorem run_rank_le (scanner : Scanner) (cs : List Callback) :
    ∀ p : FileParser, p.mState.rank ≤ (run scanner p cs).parser.mState.rank := by
  induction cs with
  | nil => intro p; simp [run]
  | cons c cs ih =>
      intro p
      simp only [run]
      exact le_trans (call_rank_le scanner p c).1 (ih _)

theorem run_name_eq_of_done (scanner : Scanner) (cs : List Callback) :
    ∀ p : FileParser, 2 ≤ p.mState.rank →
      nameChanges scanner p cs = 0 ∧ (run scanner p cs).parser.mName = p.mName := by
  induction cs with
  | nil => intro p _; simp [run, nameChanges]
  | cons c cs ih =>
      intro p h
      have hn := call_name_eq scanner p c (rank_two_ne_name _ h)
      have hr := le_trans h (call_rank_le scanner p c).1
      obtain ⟨h1, h2⟩ := ih _ hr
      simp only [run, nameChanges, FileParser.getName]
      refine ⟨?_, ?_⟩
      · simp [hn, h1]
      · rw [h2, hn]

theorem nameChanges_le_one (scanner : Scanner) (cs : List Callback) :
    ∀ p : FileParser, nameChanges scanner p cs ≤ 1 := by
  induction cs with
  | nil => intro p; simp [nameChanges]
  | cons c cs ih =>
      intro p
      simp only [nameChanges, FileParser.getName]
      rcases call_name_eq_or_done scanner p c with h | h
      · simp [h, ih]
      · have := (run_name_eq_of_done scanner cs _ h).1
        split <;> omega

theorem run_append (scanner : Scanner) (cs ds : List Callback) :
    ∀ p : FileParser, run scanner p (cs ++ ds) =
      { ret := (run scanner p cs).ret ++ (run scanner (run scanner p cs).parser ds).ret,
        parser := (run scanner (run scanner p cs).parser ds).parser,
        effects := (run scanner p cs).effects ++
          (run scanner (run scanner p cs).parser ds).effects } := by
  induction cs with
  | nil => intro p; simp [run]
  | cons c cs ih => intro p; simp [run, ih]

theorem run_blank_lines (scanner : Scanner) (n : String) (locs : List TokenLoc) :
    run scanner { mState := State.BeginState, mName := n }
        (locs.map (Callback.parseSpecial scanner.S_newline)) =
      { ret := List.replicate locs.length (some true),
        parser := { mState := State.BeginState, mName := n }, effects := [] } := by
  induction locs with
  | nil => simp [run]
  | cons l locs ih =>
      simp [run, call, FileParser.parseSpecial, List.replicate_succ] at ih ⊢
      simp [ih]

theorem scanFile_body_unterminated (scanner : Scanner) (K_end : Int) (pending : List Effect)
    (p : FileParser) (body : List Callback)
    (h : ∀ keyword loc, Callback.parseKeyword keyword loc ∈ body → keyword ≠ K_end) :
    scanFile scanner K_end (some pending) p body =
      { ret := (), parser := p,
        effects := Parser.parseEOF scanner ++ pending ++ (p.parseEOF scanner).effects } := by
  induction body with
  | nil => simp [scanFile]
  | cons c body ih =>
      have ih' := ih (fun keyword loc hm => h keyword loc (List.mem_cons_of_mem _ hm))
      cases c with
      | parseName name loc => simpa [scanFile] using ih'
      | parseKeyword keyword loc =>
          have hk : keyword ≠ K_end := h keyword loc (List.mem_cons_self _ _)
          simpa [scanFile, hk] using ih'
      | parseSpecial code loc => simpa [scanFile] using ih'
      | parseEOF => simp [scanFile]
      | parseInt value loc => simpa [scanFile] using ih'
      | parseFloat value loc => simpa [scanFile] using ih'

/-! ## Header, body, footer -/

/-- C1: for every script name `n`, a fresh parser (BeginState, empty name) fed
`parseKeyword(begin)`, `parseName(n)`, `parseSpecial(newline)` (the nested body scan runs
there), `parseName(n)` ends with `getName() = n` in EndCompleteState; the parser reports no
warning and no error, the four calls return true, true, true, false, and a following
`parseEOF` reports nothing. -/
theorem C1_well_formed_script (scanner : Scanner) (n : String) (l₁ l₂ l₃ l₄ : TokenLoc) :
    FileParser.new = { mState := State.BeginState, mName := "" } ∧
    (run scanner FileParser.new
      [Callback.parseKeyword scanner.K_begin l₁, Callback.parseName n l₂,
       Callback.parseSpecial scanner.S_newline l₃, Callback.parseName n l₄]) =
      { ret := [some true, some true, some true, some false],
        parser := { mState := State.EndCompleteState, mName := n },
        effects := [Effect.allowNameStartingwithDigit, Effect.scriptParserReset,
                    Effect.scanScriptParser, Effect.allowNameStartingwithDigit] } ∧
    (run scanner FileParser.new
      [Callback.parseKeyword scanner.K_begin l₁, Callback.parseName n l₂,
       Callback.parseSpecial scanner.S_newline l₃, Callback.parseName n l₄]).parser.getName = n ∧
    warnings (run scanner FileParser.new
      [Callback.parseKeyword scanner.K_begin l₁, Callback.parseName n l₂,
       Callback.parseSpecial scanner.S_newline l₃, Callback.parseName n l₄]).effects = [] ∧
    errors (run scanner FileParser.new
      [Callback.parseKeyword scanner.K_begin l₁, Callback.parseName n l₂,
       Callback.parseSpecial scanner.S_newline l₃, Callback.parseName n l₄]).effects = [] ∧
    ((run scanner FileParser.new
      [Callback.parseKeyword scanner.K_begin l₁, Callback.parseName n l₂,
       Callback.parseSpecial scanner.S_newline l₃, Callback.parseName n l₄]).parser.parseEOF
        scanner).effects = [] := by
  simp [run, call, FileParser.new, FileParser.parseKeyword, FileParser.parseName,
    FileParser.parseSpecial, FileParser.parseEOF, FileParser.getName, warnings, errors]

/-- C2: in EndNameState a Name token (its text) and a Keyword token (its source literal) are
compared with the recorded name: one warning when they differ, none when they are equal, never
an error; the recorded name stays, the state becomes EndCompleteState and the callback returns
false.  Hence `begin Foo ... end Bar` ends with `getName() = "Foo"` and exactly one warning. -/
theorem C2_footer_name_mismatch (scanner : Scanner) (n name : String) (keyword : Int)
    (loc l₁ l₂ l₃ l₄ : TokenLoc) :
    (FileParser.parseName { mState := State.EndNameState, mName := n } name loc scanner =
      { ret := false, parser := { mState := State.EndCompleteState, mName := n },
        effects := if n ≠ name then
            [Effect.reportWarning ("Names for script " ++ n ++ " do not match") loc]
          else [] }) ∧
    ((warnings (FileParser.parseName { mState := State.EndNameState, mName := n } name loc
        scanner).effects).length = if name = n then 0 else 1) ∧
    errors (FileParser.parseName { mState := State.EndNameState, mName := n } name loc
        scanner).effects = [] ∧
    (FileParser.parseKeyword { mState := State.EndNameState, mName := n } keyword loc scanner =
      { ret := false, parser := { mState := State.EndCompleteState, mName := n },
        effects := if n ≠ loc.mLiteral then
            [Effect.reportWarning ("Names for script " ++ n ++ " do not match") loc]
          else [] }) ∧
    ((warnings (FileParser.parseKeyword { mState := State.EndNameState, mName := n } keyword loc
        scanner).effects).length = if loc.mLiteral = n then 0 else 1) ∧
    errors (FileParser.parseKeyword { mState := State.EndNameState, mName := n } keyword loc
        scanner).effects = [] ∧
    (run scanner FileParser.new
      [Callback.parseKeyword scanner.K_begin l₁, Callback.parseName "Foo" l₂,
       Callback.parseSpecial scanner.S_newline l₃, Callback.parseName "Bar" l₄]).parser.getName
        = "Foo" ∧
    warnings (run scanner FileParser.new
      [Callback.parseKeyword scanner.K_begin l₁, Callback.parseName "Foo" l₂,
       Callback.parseSpecial scanner.S_newline l₃, Callback.parseName "Bar" l₄]).effects
        = ["Names for script Foo do not match"] ∧
    errors (run scanner FileParser.new
      [Callback.parseKeyword scanner.K_begin l₁, Callback.parseName "Foo" l₂,
       Callback.parseSpecial scanner.S_newline l₃, Callback.parseName "Bar" l₄]).effects
        = [] := by
  refine ⟨?_, ?_, ?_, ?_, ?_, ?_, ?_, ?_, ?_⟩
  · simp [FileParser.parseName]
  · by_cases h : name = n
    · subst h; simp [FileParser.parseName, warnings]
    · have h2 : ¬ n = name := fun e => h e.symm
      simp [FileParser.parseName, warnings, h, h2]
  · by_cases h : n = name <;> simp [FileParser.parseName, errors, h]
  · simp [FileParser.parseKeyword]
  · by_cases h : loc.mLiteral = n
    · simp [FileParser.parseKeyword, warnings, h]
    · have h2 : ¬ n = loc.mLiteral := fun e => h e.symm
      simp [FileParser.parseKeyword, warnings, h, h2]
  · by_cases h : n = loc.mLiteral <;> simp [FileParser.parseKeyword, errors, h]
  · simp [run, call, FileParser.new, FileParser.parseKeyword, FileParser.parseName,
      FileParser.parseSpecial, FileParser.getName]
  · simp [run, call, FileParser.new, FileParser.parseKeyword, FileParser.parseName,
      FileParser.parseSpecial, warnings]
  · simp [run, call, FileParser.new, FileParser.parseKeyword, FileParser.parseName,
      FileParser.parseSpecial, errors]

/-- C3: `parseEOF` reports an error, the one of the base parser's end-of-input handler, exactly
when the state is BeginState, NameState or BeginCompleteState; in EndNameState and
EndCompleteState it reports nothing; state and name are never changed.  In particular the scan
of `begin n`, newline and a body that never reaches the footer keyword produces an error (one
error, for the end of input), as does `begin n` followed at once by end of input, while the
same header followed by the footer produces none. -/
theorem C3_parseEOF (scanner : Scanner) (p : FileParser) (K_end : Int) (n : String)
    (body : List Callback) (l₁ l₂ l₃ l₄ l₅ : TokenLoc) :
    (errors (p.parseEOF scanner).effects ≠ [] ↔
      (p.mState = State.BeginState ∨ p.mState = State.NameState ∨
        p.mState = State.BeginCompleteState)) ∧
    ((p.parseEOF scanner).effects =
      if p.mState = State.EndNameState ∨ p.mState = State.EndCompleteState then []
      else Parser.parseEOF scanner) ∧
    errors (Parser.parseEOF scanner) = [Callback.parseEOF] ∧
    (p.parseEOF scanner).parser = p ∧
    ((∀ keyword loc, Callback.parseKeyword keyword loc ∈ body → keyword ≠ K_end) →
      errors (scanFile scanner K_end none FileParser.new
        ([Callback.parseKeyword scanner.K_begin l₁, Callback.parseName n l₂,
          Callback.parseSpecial scanner.S_newline l₃] ++ body)).effects
        = [Callback.parseEOF] ∧
      errors (scanFile scanner K_end none FileParser.new
        ([Callback.parseKeyword scanner.K_begin l₁, Callback.parseName n l₂,
          Callback.parseSpecial scanner.S_newline l₃] ++ body)).effects ≠ []) ∧
    errors (scanFile scanner K_end none FileParser.new
      [Callback.parseKeyword scanner.K_begin l₁, Callback.parseName n l₂]).effects
      = [Callback.parseEOF] ∧
    errors (scanFile scanner K_end none FileParser.new
      [Callback.parseKeyword scanner.K_begin l₁, Callback.parseName n l₂,
       Callback.parseSpecial scanner.S_newline l₃, Callback.parseKeyword K_end l₄,
       Callback.parseName n l₅]).effects = [] := by
  refine ⟨?_, ?_, ?_, ?_, ?_, ?_, ?_⟩
  · obtain ⟨st, nm⟩ := p
    cases st <;> simp [FileParser.parseEOF, Parser.parseEOF, errors]
  · obtain ⟨st, nm⟩ := p
    cases st <;> simp [FileParser.parseEOF]
  · simp [Parser.parseEOF, errors]
  · obtain ⟨st, nm⟩ := p
    cases st <;> simp [FileParser.parseEOF]
  · intro h
    have e := scanFile_body_unterminated scanner K_end [Effect.allowNameStartingwithDigit]
      { mState := State.EndNameState, mName := n } body h
    have e2 : errors (scanFile scanner K_end none FileParser.new
        ([Callback.parseKeyword scanner.K_begin l₁, Callback.parseName n l₂,
          Callback.parseSpecial scanner.S_newline l₃] ++ body)).effects
        = [Callback.parseEOF] := by
      simp [scanFile, call, splitAtScan, FileParser.new, FileParser.parseKeyword,
        FileParser.parseName, FileParser.parseSpecial, FileParser.parseEOF, Parser.parseEOF,
        errors, e]
    exact ⟨e2, by rw [e2]; simp⟩
  · simp [scanFile, call, splitAtScan, FileParser.new, FileParser.parseKeyword,
      FileParser.parseName, FileParser.parseEOF, Parser.parseEOF, errors]
  · simp [scanFile, call, splitAtScan, FileParser.new, FileParser.parseKeyword,
      FileParser.parseName, FileParser.parseSpecial, FileParser.parseEOF, errors]

/-- C3 at a concrete input: the scan of `begin Foo`, newline and the body `x`, newline, after
which the input ends, produces the error for the end of input. -/
theorem C3_parseEOF_witness :
    errors (scanFile { K_begin := 0, S_newline := 0 } 1 none FileParser.new
      ([Callback.parseKeyword 0 { mColumn := 0, mLine := 0, mLiteral := "begin" },
        Callback.parseName "Foo" { mColumn := 6, mLine := 0, mLiteral := "Foo" },
        Callback.parseSpecial 0 { mColumn := 9, mLine := 0, mLiteral := "\n" }] ++
       [Callback.parseName "x" { mColumn := 0, mLine := 1, mLiteral := "x" },
        Callback.parseSpecial 0 { mColumn := 1, mLine := 1, mLiteral := "\n" }])).effects
      = [Callback.parseEOF] :=
  ((C3_parseEOF { K_begin := 0, S_newline := 0 }
    { mState := State.EndNameState, mName := "Foo" } 1 "Foo"
    [Callback.parseName "x" { mColumn := 0, mLine := 1, mLiteral := "x" },
     Callback.parseSpecial 0 { mColumn := 1, mLine := 1, mLiteral := "\n" }]
    { mColumn := 0, mLine := 0, mLiteral := "begin" }
    { mColumn := 6, mLine := 0, mLiteral := "Foo" }
    { mColumn := 9, mLine := 0, mLiteral := "\n" }
    { mColumn := 0, mLine := 2, mLiteral := "end" }
    { mColumn := 4, mLine := 2, mLiteral := "Foo" }).2.2.2.2.1
      (by intro keyword loc h; simp at h)).1

/-- C4: in BeginCompleteState `parseName` reports, for every name `s`, exactly one warning whose
message contains `s` and no error, returns true and leaves state and recorded name as they
were.  Hence `begin n s`, newline with body, `n` ends with `getName() = n`, exactly one warning
(mentioning `s`, for instance `extra`) and no error. -/
theorem C4_stray_name_after_header (scanner : Scanner) (n s : String)
    (loc l₁ l₂ l₃ l₄ l₅ : TokenLoc) :
    (FileParser.parseName { mState := State.BeginCompleteState, mName := n } s loc scanner =
      { ret := true, parser := { mState := State.BeginCompleteState, mName := n },
        effects :=
          [Effect.reportWarning ("Stray string (" ++ s ++ ") after begin statement") loc] }) ∧
    warnings (FileParser.parseName { mState := State.BeginCompleteState, mName := n } s loc
        scanner).effects = ["Stray string (" ++ s ++ ") after begin statement"] ∧
    mentions ("Stray string (" ++ s ++ ") after begin statement") s ∧
    errors (FileParser.parseName { mState := State.BeginCompleteState, mName := n } s loc
        scanner).effects = [] ∧
    (run scanner FileParser.new
      [Callback.parseKeyword scanner.K_begin l₁, Callback.parseName n l₂,
       Callback.parseName s l₃, Callback.parseSpecial scanner.S_newline l₄,
       Callback.parseName n l₅]).parser =
      { mState := State.EndCompleteState, mName := n } ∧
    warnings (run scanner FileParser.new
      [Callback.parseKeyword scanner.K_begin l₁, Callback.parseName n l₂,
       Callback.parseName s l₃, Callback.parseSpecial scanner.S_newline l₄,
       Callback.parseName n l₅]).effects =
      ["Stray string (" ++ s ++ ") after begin statement"] ∧
    errors (run scanner FileParser.new
      [Callback.parseKeyword scanner.K_begin l₁, Callback.parseName n l₂,
       Callback.parseName s l₃, Callback.parseSpecial scanner.S_newline l₄,
       Callback.parseName n l₅]).effects = [] ∧
    warnings (run scanner FileParser.new
      [Callback.parseKeyword scanner.K_begin l₁, Callback.parseName "Foo" l₂,
       Callback.parseName "extra" l₃, Callback.parseSpecial scanner.S_newline l₄,
       Callback.parseName "Foo" l₅]).effects =
      ["Stray string (extra) after begin statement"] := by
  refine ⟨?_, ?_, mentions_stray s, ?_, ?_, ?_, ?_, ?_⟩ <;>
    simp [run, call, FileParser.new, FileParser.parseKeyword, FileParser.parseName,
      FileParser.parseSpecial, warnings, errors]

/-- C5: in NameState `parseKeyword` records, for every keyword code, the source literal of the
token as the script name, moves to BeginCompleteState and returns true without reporting
anything; for every keyword literal `k` the sequence `begin`, keyword `k`, newline with body,
keyword `k` ends with `getName() = k` in EndCompleteState without warning or error, so
`begin if ... end if` yields the name `if`. -/
theorem C5_keyword_as_name (scanner : Scanner) (n k : String) (keyword kw₁ kw₂ : Int)
    (loc l₁ l₃ : TokenLoc) (c₂ r₂ c₄ r₄ : Int) :
    (FileParser.parseKeyword { mState := State.NameState, mName := n } keyword loc scanner =
      { ret := true, parser := { mState := State.BeginCompleteState, mName := loc.mLiteral },
        effects := [] }) ∧
    (run scanner FileParser.new
      [Callback.parseKeyword scanner.K_begin l₁,
       Callback.parseKeyword kw₁ { mColumn := c₂, mLine := r₂, mLiteral := k },
       Callback.parseSpecial scanner.S_newline l₃,
       Callback.parseKeyword kw₂ { mColumn := c₄, mLine := r₄, mLiteral := k }]) =
      { ret := [some true, some true, some true, some false],
        parser := { mState := State.EndCompleteState, mName := k },
        effects := [Effect.allowNameStartingwithDigit, Effect.scriptParserReset,
                    Effect.scanScriptParser, Effect.allowNameStartingwithDigit] } ∧
    warnings (run scanner FileParser.new
      [Callback.parseKeyword scanner.K_begin l₁,
       Callback.parseKeyword kw₁ { mColumn := c₂, mLine := r₂, mLiteral := k },
       Callback.parseSpecial scanner.S_newline l₃,
       Callback.parseKeyword kw₂ { mColumn := c₄, mLine := r₄, mLiteral := k }]).effects = [] ∧
    errors (run scanner FileParser.new
      [Callback.parseKeyword scanner.K_begin l₁,
       Callback.parseKeyword kw₁ { mColumn := c₂, mLine := r₂, mLiteral := k },
       Callback.parseSpecial scanner.S_newline l₃,
       Callback.parseKeyword kw₂ { mColumn := c₄, mLine := r₄, mLiteral := k }]).effects = [] ∧
    (run scanner FileParser.new
      [Callback.parseKeyword scanner.K_begin l₁,
       Callback.parseKeyword kw₁ { mColumn := c₂, mLine := r₂, mLiteral := "if" },
       Callback.parseSpecial scanner.S_newline l₃,
       Callback.parseKeyword kw₂ { mColumn := c₄, mLine := r₄, mLiteral := "if" }]).parser.getName
      = "if" := by
  refine ⟨?_, ?_, ?_, ?_, ?_⟩ <;>
    simp [run, call, FileParser.new, FileParser.parseKeyword, FileParser.parseName,
      FileParser.parseSpecial, FileParser.getName, warnings, errors]

/-! ## Reuse, optional footer name, invariants -/

/-- C6: whatever state and name a parser has, `reset()` leaves the state and name of a freshly
constructed instance (BeginState, empty name) and resets the embedded ScriptParser and the base
parser; hence every callback sequence replayed on a used and then reset parser gives the same
return values, the same warnings and errors, the same final state and the same `getName()` as on
a fresh instance. -/
theorem C6_reset_like_fresh (scanner : Scanner) (p : FileParser) (used cs : List Callback) :
    (p.reset).parser = FileParser.new ∧
    (p.reset).parser.mState = State.BeginState ∧
    (p.reset).parser.getName = "" ∧
    (p.reset).effects = [Effect.scriptParserReset, Effect.parserReset] ∧
    run scanner (p.reset).parser cs = run scanner FileParser.new cs ∧
    run scanner ((run scanner FileParser.new used).parser.reset).parser cs =
      run scanner FileParser.new cs := by
  have h : ∀ q : FileParser, (q.reset).parser = FileParser.new := by
    intro q
    simp [FileParser.reset, FileParser.new]
  refine ⟨h p, ?_, ?_, ?_, ?_, ?_⟩
  · simp [FileParser.reset]
  · simp [FileParser.reset, FileParser.getName]
  · simp [FileParser.reset]
  · rw [h p]
  · rw [h]

/-- C7: the footer name is optional: in EndNameState and in EndCompleteState
`parseSpecial(newline)` returns false, reports nothing and leaves state and name as they were.
Hence for every name `n` the sequence `begin`, `n`, newline with body, newline ends in
EndNameState with `getName() = n`, without warning or error, and a following `parseEOF` reports
no error. -/
theorem C7_footer_name_optional (scanner : Scanner) (n : String) (loc l₁ l₂ l₃ l₄ : TokenLoc) :
    (FileParser.parseSpecial { mState := State.EndNameState, mName := n } scanner.S_newline loc
        scanner =
      { ret := false, parser := { mState := State.EndNameState, mName := n }, effects := [] }) ∧
    (FileParser.parseSpecial { mState := State.EndCompleteState, mName := n } scanner.S_newline
        loc scanner =
      { ret := false, parser := { mState := State.EndCompleteState, mName := n },
        effects := [] }) ∧
    (run scanner FileParser.new
      [Callback.parseKeyword scanner.K_begin l₁, Callback.parseName n l₂,
       Callback.parseSpecial scanner.S_newline l₃,
       Callback.parseSpecial scanner.S_newline l₄]) =
      { ret := [some true, some true, some true, some false],
        parser := { mState := State.EndNameState, mName := n },
        effects := [Effect.allowNameStartingwithDigit, Effect.scriptParserReset,
                    Effect.scanScriptParser, Effect.allowNameStartingwithDigit] } ∧
    (run scanner FileParser.new
      [Callback.parseKeyword scanner.K_begin l₁, Callback.parseName n l₂,
       Callback.parseSpecial scanner.S_newline l₃,
       Callback.parseSpecial scanner.S_newline l₄]).parser.getName = n ∧
    warnings (run scanner FileParser.new
      [Callback.parseKeyword scanner.K_begin l₁, Callback.parseName n l₂,
       Callback.parseSpecial scanner.S_newline l₃,
       Callback.parseSpecial scanner.S_newline l₄]).effects = [] ∧
    errors (run scanner FileParser.new
      [Callback.parseKeyword scanner.K_begin l₁, Callback.parseName n l₂,
       Callback.parseSpecial scanner.S_newline l₃,
       Callback.parseSpecial scanner.S_newline l₄]).effects = [] ∧
    ((run scanner FileParser.new
      [Callback.parseKeyword scanner.K_begin l₁, Callback.parseName n l₂,
       Callback.parseSpecial scanner.S_newline l₃,
       Callback.parseSpecial scanner.S_newline l₄]).parser.parseEOF scanner).effects = [] := by
  refine ⟨?_, ?_, ?_, ?_, ?_, ?_, ?_⟩ <;>
    simp [run, call, FileParser.new, FileParser.parseKeyword, FileParser.parseName,
      FileParser.parseSpecial, FileParser.parseEOF, FileParser.getName, warnings, errors]

/-- C8: the script name is written only in NameState: a callback (`parseName`, `parseKeyword`,
`parseSpecial`, `parseEOF`) called in any other state leaves `getName()` as it was, and every
callback either leaves it as it was or starts in NameState and ends in BeginCompleteState.
Hence along every callback sequence the name changes at most once, and once the state is past
NameState no callback sequence changes it again. -/
theorem C8_name_written_only_in_NameState (scanner : Scanner) (p : FileParser) (c : Callback)
    (cs : List Callback) :
    (p.mState ≠ State.NameState → (call scanner p c).parser.getName = p.getName) ∧
    ((call scanner p c).parser.getName = p.getName ∨
      (p.mState = State.NameState ∧
        (call scanner p c).parser.mState = State.BeginCompleteState)) ∧
    nameChanges scanner p cs ≤ 1 ∧
    ((p.mState = State.BeginCompleteState ∨ p.mState = State.EndNameState ∨
        p.mState = State.EndCompleteState) →
      nameChanges scanner p cs = 0 ∧ (run scanner p cs).parser.getName = p.getName) := by
  refine ⟨call_name_eq scanner p c, ?_, nameChanges_le_one scanner cs p, ?_⟩
  · by_cases hs : p.mState = State.NameState
    · obtain ⟨st, nm⟩ := p
      simp only at hs
      subst hs
      cases c with
      | parseName name loc => right; simp [call, FileParser.parseName]
      | parseKeyword keyword loc => right; simp [call, FileParser.parseKeyword]
      | parseSpecial code loc => left; simp [call, FileParser.parseSpecial, FileParser.getName]
      | parseEOF => left; simp [call, FileParser.parseEOF, FileParser.getName]
      | parseInt value loc => left; simp [call, FileParser.parseInt, FileParser.getName]
      | parseFloat value loc => left; simp [call, FileParser.parseFloat, FileParser.getName]
    · exact Or.inl (call_name_eq scanner p c hs)
  · intro h
    apply run_name_eq_of_done
    rcases h with h | h | h <;> simp [h, State.rank]

/-- C8 at a concrete input: a parser in BeginCompleteState named `Foo` keeps its name over a stray
name, the body newline and a differing footer name. -/
theorem C8_name_written_only_in_NameState_witness :
    (call { K_begin := 0, S_newline := 0 }
        { mState := State.BeginCompleteState, mName := "Foo" }
        (Callback.parseName "extra" { mColumn := 0, mLine := 0, mLiteral := "extra" })
      ).parser.getName = "Foo" ∧
    nameChanges { K_begin := 0, S_newline := 0 }
        { mState := State.BeginCompleteState, mName := "Foo" }
        [Callback.parseSpecial 0 { mColumn := 0, mLine := 0, mLiteral := "\n" },
         Callback.parseName "Bar" { mColumn := 4, mLine := 9, mLiteral := "Bar" }] = 0 ∧
    (run { K_begin := 0, S_newline := 0 }
        { mState := State.BeginCompleteState, mName := "Foo" }
        [Callback.parseSpecial 0 { mColumn := 0, mLine := 0, mLiteral := "\n" },
         Callback.parseName "Bar" { mColumn := 4, mLine := 9, mLiteral := "Bar" }]
      ).parser.getName = "Foo" :=
  have h := C8_name_written_only_in_NameState { K_begin := 0, S_newline := 0 }
    { mState := State.BeginCompleteState, mName := "Foo" }
    (Callback.parseName "extra" { mColumn := 0, mLine := 0, mLiteral := "extra" })
    [Callback.parseSpecial 0 { mColumn := 0, mLine := 0, mLiteral := "\n" },
     Callback.parseName "Bar" { mColumn := 4, mLine := 9, mLiteral := "Bar" }]
  ⟨h.1 (by decide), (h.2.2.2 (Or.inl rfl)).1, (h.2.2.2 (Or.inl rfl)).2⟩

/-- C9: with the order BeginState < NameState < BeginCompleteState < EndNameState <
EndCompleteState every callback leaves the state equal to or greater than before and advances
it by at most one step, so the state never decreases along a callback sequence; `reset()` puts
it back to BeginState, the least state. -/
theorem C9_state_monotonic (scanner : Scanner) (p : FileParser) (c : Callback)
    (cs : List Callback) :
    (State.BeginState.rank < State.NameState.rank ∧
      State.NameState.rank < State.BeginCompleteState.rank ∧
      State.BeginCompleteState.rank < State.EndNameState.rank ∧
      State.EndNameState.rank < State.EndCompleteState.rank) ∧
    p.mState.rank ≤ (call scanner p c).parser.mState.rank ∧
    (call scanner p c).parser.mState.rank ≤ p.mState.rank + 1 ∧
    p.mState.rank ≤ (run scanner p cs).parser.mState.rank ∧
    (p.reset).parser.mState = State.BeginState ∧
    (p.reset).parser.mState.rank ≤ p.mState.rank := by
  refine ⟨by simp [State.rank], (call_rank_le scanner p c).1, (call_rank_le scanner p c).2,
    run_rank_le scanner cs p, ?_, ?_⟩ <;> simp [FileParser.reset, State.rank]

/-- C10: a token without a matching rule goes to the default handler of the base parser and
changes nothing: `parseName` in BeginState or EndCompleteState, `parseKeyword` in BeginState
with a keyword other than `begin` and in BeginCompleteState or EndCompleteState,
`parseSpecial` with newline in NameState and with any other code in any state give exactly the
result of the default handler called once with the same arguments, which reports a syntax error
and no warning, with state and name unchanged.  Every callback either falls under a row of the
transition table, and then reports no error, or equals this default call. -/
theorem C10_default_delegation (scanner : Scanner) (p : FileParser) (name : String)
    (keyword code : Int) (loc : TokenLoc) (c : Callback) :
    ((p.mState = State.BeginState ∨ p.mState = State.EndCompleteState) →
      p.parseName name loc scanner =
        { ret := (Parser.parseName name loc scanner).1, parser := p,
          effects := (Parser.parseName name loc scanner).2 }) ∧
    (((p.mState = State.BeginState ∧ keyword ≠ scanner.K_begin) ∨
        p.mState = State.BeginCompleteState ∨ p.mState = State.EndCompleteState) →
      p.parseKeyword keyword loc scanner =
        { ret := (Parser.parseKeyword keyword loc scanner).1, parser := p,
          effects := (Parser.parseKeyword keyword loc scanner).2 }) ∧
    (((code = scanner.S_newline ∧ p.mState = State.NameState) ∨ code ≠ scanner.S_newline) →
      p.parseSpecial code loc scanner =
        { ret := (Parser.parseSpecial code loc scanner).1, parser := p,
          effects := (Parser.parseSpecial code loc scanner).2 }) ∧
    (errors (Parser.parseName name loc scanner).2 = [Callback.parseName name loc] ∧
      warnings (Parser.parseName name loc scanner).2 = [] ∧
      errors (Parser.parseKeyword keyword loc scanner).2 = [Callback.parseKeyword keyword loc] ∧
      warnings (Parser.parseKeyword keyword loc scanner).2 = [] ∧
      errors (Parser.parseSpecial code loc scanner).2 = [Callback.parseSpecial code loc] ∧
      warnings (Parser.parseSpecial code loc scanner).2 = []) ∧
    (specTableRule scanner p.mState c = false →
      call scanner p c = defaultCall scanner p c ∧ (call scanner p c).parser = p ∧
        warnings (call scanner p c).effects = []) ∧
    errors (call scanner p c).effects =
      (if specTableRule scanner p.mState c = true then [] else [c]) := by
  obtain ⟨st, nm⟩ := p
  refine ⟨?_, ?_, ?_, ?_, ?_, ?_⟩
  · rintro (h | h) <;> simp only at h <;> subst h <;> simp [FileParser.parseName]
  · rintro (⟨h, hk⟩ | h | h) <;> simp only at h <;> subst h
    · simp [FileParser.parseKeyword, hk]
    · simp [FileParser.parseKeyword]
    · simp [FileParser.parseKeyword]
  · rintro (⟨hc, h⟩ | hc)
    · simp only at h
      subst h
      simp [FileParser.parseSpecial, hc]
    · simp [FileParser.parseSpecial, hc]
  · simp [Parser.parseName, Parser.parseKeyword, Parser.parseSpecial, errors, warnings]
  · intro h
    cases c with
    | parseName name loc =>
        cases st <;> simp_all [specTableRule, call, defaultCall, FileParser.parseName,
          Parser.parseName, warnings]
    | parseKeyword keyword loc =>
        cases st <;> simp_all [specTableRule, call, defaultCall, FileParser.parseKeyword,
          Parser.parseKeyword, warnings]
    | parseSpecial code loc =>
        by_cases hc : code = scanner.S_newline <;> cases st <;>
          simp_all [specTableRule, call, defaultCall, FileParser.parseSpecial,
            Parser.parseSpecial, warnings]
    | parseEOF =>
        cases st <;> simp_all [specTableRule, call, defaultCall, FileParser.parseEOF,
          Parser.parseEOF, warnings]
    | parseInt value loc =>
        simp [call, defaultCall, FileParser.parseInt, Parser.parseInt, warnings]
    | parseFloat value loc =>
        simp [call, defaultCall, FileParser.parseFloat, Parser.parseFloat, warnings]
  · cases c with
    | parseName name loc =>
        cases st <;> simp [specTableRule, call, FileParser.parseName, Parser.parseName, errors,
          errors_if_warning]
    | parseKeyword keyword loc =>
        by_cases hk : keyword = scanner.K_begin <;> cases st <;>
          simp [specTableRule, call, FileParser.parseKeyword, Parser.parseKeyword, errors, hk,
            errors_if_warning]
    | parseSpecial code loc =>
        by_cases hc : code = scanner.S_newline <;> cases st <;>
          simp [specTableRule, call, FileParser.parseSpecial, Parser.parseSpecial, errors, hc]
    | parseEOF =>
        cases st <;> simp [specTableRule, call, FileParser.parseEOF, Parser.parseEOF, errors]
    | parseInt value loc =>
        cases st <;> simp [specTableRule, call, FileParser.parseInt, Parser.parseInt, errors]
    | parseFloat value loc =>
        cases st <;> simp [specTableRule, call, FileParser.parseFloat, Parser.parseFloat, errors]

/-- C10 at a concrete input: a fresh parser (BeginState) given the name `x`, a keyword other than
`begin` or a special other than newline answers with the default handler of the base parser. -/
theorem C10_default_delegation_witness :
    FileParser.parseName { mState := State.BeginState, mName := "" } "x"
        { mColumn := 0, mLine := 0, mLiteral := "x" } { K_begin := 0, S_newline := 0 } =
      { ret := (Parser.parseName "x" { mColumn := 0, mLine := 0, mLiteral := "x" }
            { K_begin := 0, S_newline := 0 }).1,
        parser := { mState := State.BeginState, mName := "" },
        effects := (Parser.parseName "x" { mColumn := 0, mLine := 0, mLiteral := "x" }
            { K_begin := 0, S_newline := 0 }).2 } ∧
    FileParser.parseKeyword { mState := State.BeginState, mName := "" } 1
        { mColumn := 0, mLine := 0, mLiteral := "x" } { K_begin := 0, S_newline := 0 } =
      { ret := (Parser.parseKeyword 1 { mColumn := 0, mLine := 0, mLiteral := "x" }
            { K_begin := 0, S_newline := 0 }).1,
        parser := { mState := State.BeginState, mName := "" },
        effects := (Parser.parseKeyword 1 { mColumn := 0, mLine := 0, mLiteral := "x" }
            { K_begin := 0, S_newline := 0 }).2 } ∧
    FileParser.parseSpecial { mState := State.BeginState, mName := "" } 1
        { mColumn := 0, mLine := 0, mLiteral := "x" } { K_begin := 0, S_newline := 0 } =
      { ret := (Parser.parseSpecial 1 { mColumn := 0, mLine := 0, mLiteral := "x" }
            { K_begin := 0, S_newline := 0 }).1,
        parser := { mState := State.BeginState, mName := "" },
        effects := (Parser.parseSpecial 1 { mColumn := 0, mLine := 0, mLiteral := "x" }
            { K_begin := 0, S_newline := 0 }).2 } ∧
    call { K_begin := 0, S_newline := 0 } { mState := State.BeginState, mName := "" }
        (Callback.parseName "x" { mColumn := 0, mLine := 0, mLiteral := "x" }) =
      defaultCall { K_begin := 0, S_newline := 0 } { mState := State.BeginState, mName := "" }
        (Callback.parseName "x" { mColumn := 0, mLine := 0, mLiteral := "x" }) :=
  have h := C10_default_delegation { K_begin := 0, S_newline := 0 }
    { mState := State.BeginState, mName := "" } "x" 1 1
    { mColumn := 0, mLine := 0, mLiteral := "x" }
    (Callback.parseName "x" { mColumn := 0, mLine := 0, mLiteral := "x" })
  ⟨h.1 (Or.inl rfl), h.2.1 (Or.inl ⟨rfl, by decide⟩), h.2.2.1 (Or.inr (by decide)),
    (h.2.2.2.2.1 rfl).1⟩

/-! ## Tokens after the header, blank lines, hand-off to the body parser -/

/-- C11 (counterexample): a keyword received in BeginCompleteState goes to the default handler of
the base parser, so an error and no warning is reported for it. -/
theorem C11_stray_keyword_counterexample :
    warnings (FileParser.parseKeyword { mState := State.BeginCompleteState, mName := "Foo" } 5
        { mColumn := 10, mLine := 0, mLiteral := "if" } { K_begin := 0, S_newline := 0 }).effects
      = [] ∧
    errors (FileParser.parseKeyword { mState := State.BeginCompleteState, mName := "Foo" } 5
        { mColumn := 10, mLine := 0, mLiteral := "if" } { K_begin := 0, S_newline := 0 }).effects
      = [Callback.parseKeyword 5 { mColumn := 10, mLine := 0, mLiteral := "if" }] ∧
    ¬ (warnings (FileParser.parseKeyword { mState := State.BeginCompleteState, mName := "Foo" } 5
          { mColumn := 10, mLine := 0, mLiteral := "if" }
          { K_begin := 0, S_newline := 0 }).effects ≠ [] ∧
        errors (FileParser.parseKeyword { mState := State.BeginCompleteState, mName := "Foo" } 5
          { mColumn := 10, mLine := 0, mLiteral := "if" }
          { K_begin := 0, S_newline := 0 }).effects = []) := by
  decide

/-- C11 (amended): in BeginCompleteState a stray Name token is a warning without error and is
ignored (the callback returns true); a Keyword, an Integer, a Float or a Special other than
newline is handed to the default handler of the base parser, which reports an error and no
warning.  In every one of these cases state and name stay as they were. -/
theorem C11_tokens_after_header (scanner : Scanner) (n s : String) (keyword code value : Int)
    (bits : Nat) (loc : TokenLoc) :
    (FileParser.parseName { mState := State.BeginCompleteState, mName := n } s loc scanner =
      { ret := true, parser := { mState := State.BeginCompleteState, mName := n },
        effects :=
          [Effect.reportWarning ("Stray string (" ++ s ++ ") after begin statement") loc] }) ∧
    errors (FileParser.parseName { mState := State.BeginCompleteState, mName := n } s loc
      scanner).effects = [] ∧
    (FileParser.parseKeyword { mState := State.BeginCompleteState, mName := n } keyword loc
        scanner =
      { ret := (Parser.parseKeyword keyword loc scanner).1,
        parser := { mState := State.BeginCompleteState, mName := n },
        effects := (Parser.parseKeyword keyword loc scanner).2 }) ∧
    (warnings (Parser.parseKeyword keyword loc scanner).2 = [] ∧
      errors (Parser.parseKeyword keyword loc scanner).2 = [Callback.parseKeyword keyword loc]) ∧
    (code ≠ scanner.S_newline →
      FileParser.parseSpecial { mState := State.BeginCompleteState, mName := n } code loc
          scanner =
        { ret := (Parser.parseSpecial code loc scanner).1,
          parser := { mState := State.BeginCompleteState, mName := n },
          effects := (Parser.parseSpecial code loc scanner).2 }) ∧
    (warnings (Parser.parseSpecial code loc scanner).2 = [] ∧
      errors (Parser.parseSpecial code loc scanner).2 = [Callback.parseSpecial code loc]) ∧
    (FileParser.parseInt { mState := State.BeginCompleteState, mName := n } value loc scanner =
      { ret := true, parser := { mState := State.BeginCompleteState, mName := n },
        effects := [Effect.reportError (Callback.parseInt value loc)] }) ∧
    (FileParser.parseFloat { mState := State.BeginCompleteState, mName := n } bits loc scanner =
      { ret := true, parser := { mState := State.BeginCompleteState, mName := n },
        effects := [Effect.reportError (Callback.parseFloat bits loc)] }) := by
  refine ⟨?_, ?_, ?_, ?_, ?_, ?_, ?_, ?_⟩
  · simp [FileParser.parseName]
  · simp [FileParser.parseName, errors]
  · simp [FileParser.parseKeyword]
  · simp [Parser.parseKeyword, warnings, errors]
  · intro hc
    simp [FileParser.parseSpecial, hc]
  · simp [Parser.parseSpecial, warnings, errors]
  · simp [FileParser.parseInt, Parser.parseInt]
  · simp [FileParser.parseFloat, Parser.parseFloat]

/-- C11 at a concrete input: after `begin Foo` the special with code 1, which is not the newline
code 0, is answered by the default handler. -/
theorem C11_tokens_after_header_witness :
    FileParser.parseSpecial { mState := State.BeginCompleteState, mName := "Foo" } 1
        { mColumn := 10, mLine := 0, mLiteral := "(" } { K_begin := 0, S_newline := 0 } =
      { ret := (Parser.parseSpecial 1 { mColumn := 10, mLine := 0, mLiteral := "(" }
          { K_begin := 0, S_newline := 0 }).1,
        parser := { mState := State.BeginCompleteState, mName := "Foo" },
        effects := (Parser.parseSpecial 1 { mColumn := 10, mLine := 0, mLiteral := "(" }
          { K_begin := 0, S_newline := 0 }).2 } :=
  (C11_tokens_after_header { K_begin := 0, S_newline := 0 } "Foo" "extra" 5 1 7 0
    { mColumn := 10, mLine := 0, mLiteral := "(" }).2.2.2.2.1 (by decide)

/-- C12: blank lines before the header are ignored: in BeginState `parseSpecial(newline)` returns
true, reports nothing and leaves state and name as they were; hence any number of newlines
followed by a callback sequence `t` gives, on a fresh parser, the final state, name,
diagnostics and return values for `t` that `t` alone gives. -/
theorem C12_blank_lines_before_header (scanner : Scanner) (n : String) (loc : TokenLoc)
    (locs : List TokenLoc) (t : List Callback) :
    (FileParser.parseSpecial { mState := State.BeginState, mName := n } scanner.S_newline loc
        scanner =
      { ret := true, parser := { mState := State.BeginState, mName := n }, effects := [] }) ∧
    (run scanner FileParser.new (locs.map (Callback.parseSpecial scanner.S_newline) ++ t) =
      { ret := List.replicate locs.length (some true) ++ (run scanner FileParser.new t).ret,
        parser := (run scanner FileParser.new t).parser,
        effects := (run scanner FileParser.new t).effects }) ∧
    (run scanner FileParser.new
        (locs.map (Callback.parseSpecial scanner.S_newline) ++ t)).parser.getName =
      (run scanner FileParser.new t).parser.getName ∧
    warnings (run scanner FileParser.new
        (locs.map (Callback.parseSpecial scanner.S_newline) ++ t)).effects =
      warnings (run scanner FileParser.new t).effects ∧
    errors (run scanner FileParser.new
        (locs.map (Callback.parseSpecial scanner.S_newline) ++ t)).effects =
      errors (run scanner FileParser.new t).effects := by
  have h : run scanner FileParser.new (locs.map (Callback.parseSpecial scanner.S_newline) ++ t) =
      { ret := List.replicate locs.length (some true) ++ (run scanner FileParser.new t).ret,
        parser := (run scanner FileParser.new t).parser,
        effects := (run scanner FileParser.new t).effects } := by
    rw [run_append]
    have hb := run_blank_lines scanner "" locs
    simp only [FileParser.new] at hb ⊢
    rw [hb]
    simp
  refine ⟨by simp [FileParser.parseSpecial], h, ?_, ?_, ?_⟩ <;> rw [h]

/-- C13: `parseKeyword(begin)` in BeginState moves to NameState, asks the scanner once for
digit-leading names and returns true; `parseSpecial(newline)` in BeginCompleteState resets the
embedded ScriptParser, runs one nested scan with it, then sets EndNameState, asks once more for
digit-leading names, returns true and keeps the name.  No other callback in any state asks for
digit-leading names or runs the ScriptParser. -/
theorem C13_hand_off (scanner : Scanner) (n : String) (loc : TokenLoc) (p : FileParser)
    (c : Callback) :
    (FileParser.parseKeyword { mState := State.BeginState, mName := n } scanner.K_begin loc
        scanner =
      { ret := true, parser := { mState := State.NameState, mName := n },
        effects := [Effect.allowNameStartingwithDigit] }) ∧
    (FileParser.parseSpecial { mState := State.BeginCompleteState, mName := n }
        scanner.S_newline loc scanner =
      { ret := true, parser := { mState := State.EndNameState, mName := n },
        effects := [Effect.scriptParserReset, Effect.scanScriptParser,
                    Effect.allowNameStartingwithDigit] }) ∧
    (Effect.allowNameStartingwithDigit ∈ (call scanner p c).effects ↔
      ((p.mState = State.BeginState ∧ ∃ l, c = Callback.parseKeyword scanner.K_begin l) ∨
        (p.mState = State.BeginCompleteState ∧
          ∃ l, c = Callback.parseSpecial scanner.S_newline l))) ∧
    (Effect.scanScriptParser ∈ (call scanner p c).effects ↔
      (p.mState = State.BeginCompleteState ∧
        ∃ l, c = Callback.parseSpecial scanner.S_newline l)) ∧
    (Effect.scriptParserReset ∈ (call scanner p c).effects ↔
      (p.mState = State.BeginCompleteState ∧
        ∃ l, c = Callback.parseSpecial scanner.S_newline l)) := by
  obtain ⟨st, nm⟩ := p
  refine ⟨by simp [FileParser.parseKeyword], by simp [FileParser.parseSpecial], ?_, ?_, ?_⟩
  all_goals
    cases c with
    | parseName name l =>
        cases st <;> simp [call, FileParser.parseName, Parser.parseName]
    | parseKeyword keyword l =>
        by_cases hk : keyword = scanner.K_begin <;> cases st <;>
          simp [call, FileParser.parseKeyword, Parser.parseKeyword, hk]
    | parseSpecial code l =>
        by_cases hc : code = scanner.S_newline <;> cases st <;>
          simp [call, FileParser.parseSpecial, Parser.parseSpecial, hc]
    | parseEOF =>
        cases st <;> simp [call, FileParser.parseEOF, Parser.parseEOF]
    | parseInt value l => simp [call, FileParser.parseInt, Parser.parseInt]
    | parseFloat value l => simp [call, FileParser.parseFloat, Parser.parseFloat]

end Compiler
/-!
# Terrain: theorems
-/

namespace MWRender

/-! ## Helper lemmas -/

theorem wrapInt_eq (z : Int) (h1 : -2147483648 ≤ z) (h2 : z ≤ 2147483647) : wrapInt z = z := by
  unfold wrapInt
  omega

theorem size_le_of_sq (L : Int) (hL : 1 ≤ L) (hLL : L * L ≤ 2147483647) : L ≤ 46340 := by
  by_contra h
  have h1 : 46341 ≤ L := by omega
  nlinarith

theorem floor_parts (L x : Int) (hL : 1 ≤ L) (h1 : -L ≤ x) (h2 : x < 2 * L) :
    (x < 0 ∧ Int.fdiv x L = -1 ∧ Int.fmod x L = x + L) ∨
    (0 ≤ x ∧ x < L ∧ Int.fdiv x L = 0 ∧ Int.fmod x L = x) ∨
    (L ≤ x ∧ Int.fdiv x L = 1 ∧ Int.fmod x L = x - L) := by
  have hL0 : (0 : Int) ≤ L := by omega
  have hLp : (0 : Int) < L := by omega
  rw [Int.fdiv_eq_ediv x hL0, Int.fmod_eq_emod x hL0]
  rcases lt_or_le x 0 with h | h
  · left
    have := (Int.ediv_emod_unique (a := x) (r := x + L) (q := -1) hLp).2
      ⟨by ring, by omega, by omega⟩
    exact ⟨h, this.1, this.2⟩
  · rcases lt_or_le x L with h' | h'
    · right; left
      have := (Int.ediv_emod_unique (a := x) (r := x) (q := 0) hLp).2
        ⟨by ring, by omega, by omega⟩
      exact ⟨h, h', this.1, this.2⟩
    · right; right
      have := (Int.ediv_emod_unique (a := x) (r := x - L) (q := 1) hLp).2
        ⟨by ring, by omega, by omega⟩
      exact ⟨h', this.1, this.2⟩

theorem fmod_bounds (L x : Int) (hL : 1 ≤ L) : 0 ≤ Int.fmod x L ∧ Int.fmod x L < L := by
  have hL0 : (0 : Int) ≤ L := by omega
  rw [Int.fmod_eq_emod x hL0]
  exact ⟨Int.emod_nonneg x (by omega), Int.emod_lt_of_pos x (by omega)⟩

theorem shift_eq (L c x : Int) (hL : 1 ≤ L) (hL2 : 2 * L ≤ 2147483647)
    (hc₁ : -2147483648 < c) (hc₂ : c < 2147483647) (h1 : -L ≤ x) (h2 : x < 2 * L) :
    (if x < 0 then (wrapInt (c - 1), wrapInt (x + L))
      else if x ≥ L then (wrapInt (c + 1), wrapInt (x - L)) else (c, x)) =
      (c + Int.fdiv x L, Int.fmod x L) := by
  rcases floor_parts L x hL h1 h2 with ⟨h, hd, hm⟩ | ⟨h, h', hd, hm⟩ | ⟨h, hd, hm⟩
  · rw [hd, hm, if_pos h, wrapInt_eq (c - 1) (by omega) (by omega),
      wrapInt_eq (x + L) (by omega) (by omega)]
    rfl
  · rw [hd, hm, if_neg (not_lt.mpr h), if_neg (not_le.mpr h')]; simp
  · rw [hd, hm, if_neg (by omega), if_pos h, wrapInt_eq (c + 1) (by omega) (by omega),
      wrapInt_eq (x - L) (by omega) (by omega)]

theorem asserts_pass (L x y : Int) (hL : 1 ≤ L) (hL2 : 2 * L ≤ 2147483647)
    (hx₁ : -L ≤ x) (hx₂ : x < 2 * L) (hy₁ : -L ≤ y) (hy₂ : y < 2 * L) :
    (x ≥ wrapInt (-L) ∧ y ≥ wrapInt (-L)) ∧ (x < wrapInt (2 * L) ∧ y < wrapInt (2 * L)) := by
  rw [wrapInt_eq (-L) (by omega) (by omega), wrapInt_eq (2 * L) (by omega) (by omega)]
  exact ⟨⟨hx₁, hy₁⟩, hx₂, hy₂⟩

theorem getLtexIndexAt_value (env : Environment) (cellX cellY x y : Int)
    (hL : 1 ≤ env.LAND_TEXTURE_SIZE)
    (hLL : env.LAND_TEXTURE_SIZE * env.LAND_TEXTURE_SIZE ≤ 2147483647)
    (hcx₁ : -2147483648 < cellX) (hcx₂ : cellX < 2147483647)
    (hcy₁ : -2147483648 < cellY) (hcy₂ : cellY < 2147483647)
    (hx₁ : -env.LAND_TEXTURE_SIZE ≤ x) (hx₂ : x < 2 * env.LAND_TEXTURE_SIZE)
    (hy₁ : -env.LAND_TEXTURE_SIZE ≤ y) (hy₂ : y < 2 * env.LAND_TEXTURE_SIZE) :
    getLtexIndexAt env cellX cellY x y =
      some (match env.lands (cellX + Int.fdiv x env.LAND_TEXTURE_SIZE)
                (cellY + Int.fdiv y env.LAND_TEXTURE_SIZE) with
        | some land =>
            (land.textures (Int.fmod y env.LAND_TEXTURE_SIZE * env.LAND_TEXTURE_SIZE +
              Int.fmod x env.LAND_TEXTURE_SIZE) : Int)
        | none => 0) ∧
    0 ≤ Int.fmod y env.LAND_TEXTURE_SIZE * env.LAND_TEXTURE_SIZE +
        Int.fmod x env.LAND_TEXTURE_SIZE ∧
    Int.fmod y env.LAND_TEXTURE_SIZE * env.LAND_TEXTURE_SIZE +
        Int.fmod x env.LAND_TEXTURE_SIZE <
      env.LAND_TEXTURE_SIZE * env.LAND_TEXTURE_SIZE := by
  have hL46 := size_le_of_sq _ hL hLL
  have hL2 : 2 * env.LAND_TEXTURE_SIZE ≤ 2147483647 := by omega
  obtain ⟨hx0, hxL⟩ := fmod_bounds env.LAND_TEXTURE_SIZE x hL
  obtain ⟨hy0, hyL⟩ := fmod_bounds env.LAND_TEXTURE_SIZE y hL
  have hprod0 : 0 ≤ Int.fmod y env.LAND_TEXTURE_SIZE * env.LAND_TEXTURE_SIZE :=
    mul_nonneg hy0 (by omega)
  have hprod : Int.fmod y env.LAND_TEXTURE_SIZE * env.LAND_TEXTURE_SIZE +
      env.LAND_TEXTURE_SIZE ≤ env.LAND_TEXTURE_SIZE * env.LAND_TEXTURE_SIZE := by nlinarith
  refine ⟨?_, by omega, by omega⟩
  obtain ⟨a1, a2⟩ := asserts_pass _ x y hL hL2 hx₁ hx₂ hy₁ hy₂
  unfold getLtexIndexAt
  rw [if_neg (not_not.mpr a1), if_neg (not_not.mpr a2)]
  simp only
  rw [shift_eq _ cellX x hL hL2 hcx₁ hcx₂ hx₁ hx₂, shift_eq _ cellY y hL hL2 hcy₁ hcy₂ hy₁ hy₂]
  simp only
  rw [wrapInt_eq (Int.fmod y env.LAND_TEXTURE_SIZE * env.LAND_TEXTURE_SIZE) (by omega)
      (by omega),
    wrapInt_eq (Int.fmod y env.LAND_TEXTURE_SIZE * env.LAND_TEXTURE_SIZE +
      Int.fmod x env.LAND_TEXTURE_SIZE) (by omega) (by omega)]
  cases env.lands (cellX + Int.fdiv x env.LAND_TEXTURE_SIZE)
    (cellY + Int.fdiv y env.LAND_TEXTURE_SIZE) <;> rfl

theorem getLtexIndexAt_isSome (env : Environment) (cellX cellY x y : Int)
    (hL : 1 ≤ env.LAND_TEXTURE_SIZE) (hL2 : 2 * env.LAND_TEXTURE_SIZE ≤ 2147483647)
    (hx₁ : -env.LAND_TEXTURE_SIZE ≤ x) (hx₂ : x < 2 * env.LAND_TEXTURE_SIZE)
    (hy₁ : -env.LAND_TEXTURE_SIZE ≤ y) (hy₂ : y < 2 * env.LAND_TEXTURE_SIZE) :
    (getLtexIndexAt env cellX cellY x y).isSome := by
  obtain ⟨a1, a2⟩ := asserts_pass _ x y hL hL2 hx₁ hx₂ hy₁ hy₂
  unfold getLtexIndexAt
  rw [if_neg (not_not.mpr a1), if_neg (not_not.mpr a2)]
  simp only
  split <;> rfl

theorem mem_intRange (lo hi z : Int) : z ∈ intRange lo hi ↔ lo ≤ z ∧ z < hi := by
  unfold intRange
  simp only [List.mem_map, List.mem_range]
  constructor
  · rintro ⟨i, hi', rfl⟩
    have := Int.lt_toNat.mp hi'
    omega
  · rintro ⟨h1, h2⟩
    have hz : ((z - lo).toNat : Int) = z - lo := Int.toNat_of_nonneg (by omega)
    refine ⟨(z - lo).toNat, ?_, ?_⟩
    · apply Int.lt_toNat.mpr
      omega
    · omega

theorem mem_ltexWindow (fromX fromY size x y : Int)
    (hfx : 0 ≤ fromX) (hfy : 0 ≤ fromY) (hmx : fromX ≤ 2147483647) (hmy : fromY ≤ 2147483647)
    (hs : -2147483648 ≤ size) (hsx : fromX + size ≤ 2147483646)
    (hsy : fromY + size ≤ 2147483646) :
    (x, y) ∈ ltexWindow fromX fromY size ↔
      (fromX - 1 ≤ x ∧ x ≤ fromX + size) ∧ (fromY - 1 ≤ y ∧ y ≤ fromY + size) := by
  unfold ltexWindow
  rw [wrapInt_eq (fromY - 1) (by omega) (by omega),
    wrapInt_eq (fromY + size) (by omega) (by omega),
    wrapInt_eq (fromY + size + 1) (by omega) (by omega),
    wrapInt_eq (fromX - 1) (by omega) (by omega),
    wrapInt_eq (fromX + size) (by omega) (by omega),
    wrapInt_eq (fromX + size + 1) (by omega) (by omega)]
  simp only [List.mem_flatMap, List.mem_map, mem_intRange, Prod.mk.injEq]
  constructor
  · rintro ⟨b, hb, a, ha, rfl, rfl⟩
    omega
  · rintro ⟨hx, hy⟩
    exact ⟨y, by omega, x, by omega, rfl, rfl⟩

theorem window_calls_isSome (env : Environment) (cellX cellY fromX fromY size : Int)
    (hL : 1 ≤ env.LAND_TEXTURE_SIZE) (hL2 : 2 * env.LAND_TEXTURE_SIZE ≤ 2147483647)
    (hfx : 0 ≤ fromX) (hfy : 0 ≤ fromY) (hmx : fromX ≤ 2147483647) (hmy : fromY ≤ 2147483647)
    (hs : -2147483648 ≤ size)
    (hsx : fromX + size ≤ env.LAND_TEXTURE_SIZE) (hsy : fromY + size ≤ env.LAND_TEXTURE_SIZE) :
    ∀ xy ∈ ltexWindow fromX fromY size, (getLtexIndexAt env cellX cellY xy.1 xy.2).isSome := by
  rintro ⟨x, y⟩ hxy
  rw [mem_ltexWindow fromX fromY size x y hfx hfy hmx hmy hs (by omega) (by omega)] at hxy
  exact getLtexIndexAt_isSome env cellX cellY x y hL hL2 (by omega) (by omega) (by omega)
    (by omega)

theorem texture_asserts (L fromX fromY size : Int) (hL2 : 2 * L ≤ 2147483647)
    (hfx : 0 ≤ fromX) (hfy : 0 ≤ fromY) (hs : -2147483648 ≤ size)
    (hsx : fromX + size ≤ L) (hsy : fromY + size ≤ L) :
    (fromX ≥ 0 ∧ fromY ≥ 0) ∧ (wrapInt (fromX + size) ≤ L ∧ wrapInt (fromY + size) ≤ L) := by
  rw [wrapInt_eq (fromX + size) (by omega) (by omega),
    wrapInt_eq (fromY + size) (by omega) (by omega)]
  exact ⟨⟨hfx, hfy⟩, hsx, hsy⟩

theorem mem_setInsert (v x : Nat) (s : List Nat) : x ∈ setInsert v s ↔ x = v ∨ x ∈ s := by
  induction s with
  | nil => simp [setInsert]
  | cons a as ih =>
      simp only [setInsert]
      split
      · simp
      · split
        · rename_i h1 h2
          subst h2
          simp
        · simp only [List.mem_cons, ih]
          tauto

theorem setInsert_sorted (v : Nat) (s : List Nat) (h : s.Sorted (· < ·)) :
    (setInsert v s).Sorted (· < ·) := by
  induction s with
  | nil => simp [setInsert]
  | cons a as ih =>
      simp only [setInsert]
      split
      · rename_i h1
        refine List.sorted_cons.mpr ⟨?_, h⟩
        intro b hb
        rcases List.mem_cons.mp hb with rfl | hb
        · exact h1
        · exact lt_trans h1 (List.rel_of_sorted_cons h b hb)
      · split
        · exact h
        · rename_i h1 h2
          refine List.sorted_cons.mpr ⟨?_, ih (List.sorted_cons.mp h).2⟩
          intro b hb
          rcases (mem_setInsert v b as).mp hb with rfl | hb
          · omega
          · exact List.rel_of_sorted_cons h b hb

theorem collectLtexIndexes_spec (env : Environment) (cellX cellY : Int)
    (win : List (Int × Int))
    (h : ∀ xy ∈ win, (getLtexIndexAt env cellX cellY xy.1 xy.2).isSome) :
    ∀ s : List Nat, s.Sorted (· < ·) →
      (collectLtexIndexes env cellX cellY win s).calls = win ∧
      ∃ s', (collectLtexIndexes env cellX cellY win s).result = some s' ∧
        s'.Sorted (· < ·) ∧
        ∀ v, v ∈ s' ↔ (v ∈ s ∨ ∃ xy ∈ win, sampledLtexIndex env cellX cellY xy = v) := by
  induction win with
  | nil =>
      intro s hs
      exact ⟨by simp [collectLtexIndexes], s, by simp [collectLtexIndexes], hs, by simp⟩
  | cons xy win ih =>
      obtain ⟨x, y⟩ := xy
      intro s hs
      have h0 := h (x, y) (List.mem_cons_self _ _)
      obtain ⟨v, hv⟩ := Option.isSome_iff_exists.mp h0
      simp only at hv
      obtain ⟨hc, s', e, hs', hm⟩ := ih (fun xy hxy => h xy (List.mem_cons_of_mem _ hxy))
        (setInsert (v % 65536).toNat s) (setInsert_sorted _ s hs)
      refine ⟨by simp only [collectLtexIndexes, hv, hc], s',
        by simp only [collectLtexIndexes, hv, e], hs', ?_⟩
      intro u
      rw [hm u, mem_setInsert]
      have hsv : sampledLtexIndex env cellX cellY (x, y) = (v % 65536).toNat := by
        simp [sampledLtexIndex, hv]
      constructor
      · rintro ((rfl | hu) | ⟨xy, hxy, rfl⟩)
        · exact Or.inr ⟨(x, y), List.mem_cons_self _ _, hsv⟩
        · exact Or.inl hu
        · exact Or.inr ⟨xy, List.mem_cons_of_mem _ hxy, rfl⟩
      · rintro (hu | ⟨xy, hxy, rfl⟩)
        · exact Or.inl (Or.inr hu)
        · rcases List.mem_cons.mp hxy with rfl | hxy
          · exact Or.inl (Or.inl hsv)
          · exact Or.inr ⟨xy, hxy, rfl⟩

theorem initTerrainTextures_calls (env : Environment) (layerList : List LayerInstance)
    (cellX cellY fromX fromY size : Int) (indexes : List (Nat × Int))
    (hL : 1 ≤ env.LAND_TEXTURE_SIZE) (hL2 : 2 * env.LAND_TEXTURE_SIZE ≤ 2147483647)
    (hfx : 0 ≤ fromX) (hfy : 0 ≤ fromY) (hmx : fromX ≤ 2147483647) (hmy : fromY ≤ 2147483647)
    (hs : -2147483648 ≤ size)
    (hsx : fromX + size ≤ env.LAND_TEXTURE_SIZE) (hsy : fromY + size ≤ env.LAND_TEXTURE_SIZE) :
    (initTerrainTextures env layerList cellX cellY fromX fromY size indexes).calls =
      ltexWindow fromX fromY size := by
  obtain ⟨a1, a2⟩ := texture_asserts _ fromX fromY size hL2 hfx hfy hs hsx hsy
  obtain ⟨hc, s, e, _, _⟩ := collectLtexIndexes_spec env cellX cellY
    (ltexWindow fromX fromY size)
    (window_calls_isSome env cellX cellY fromX fromY size hL hL2 hfx hfy hmx hmy hs hsx hsy) []
    List.sorted_nil
  unfold initTerrainTextures
  rw [if_neg (not_not.mpr a1), if_neg (not_not.mpr a2)]
  simp only [e]
  split <;> exact hc

theorem blendWrites_ok (env : Environment)
    (blendMapSize splatSize cellX cellY fromX fromY : Int) (indexes : List (Nat × Int))
    (win : List (Int × Int))
    (h : ∀ xy ∈ win, (getLtexIndexAt env cellX cellY xy.1 xy.2).isSome) :
    (blendWrites env blendMapSize splatSize cellX cellY fromX fromY indexes win).calls = win ∧
    (blendWrites env blendMapSize splatSize cellX cellY fromX fromY indexes win).completed
      = true := by
  induction win with
  | nil => simp [blendWrites]
  | cons xy win ih =>
      obtain ⟨texX, texY⟩ := xy
      have h0 := h (texX, texY) (List.mem_cons_self _ _)
      obtain ⟨ih1, ih2⟩ := ih (fun xy hxy => h xy (List.mem_cons_of_mem _ hxy))
      obtain ⟨v, hv⟩ := Option.isSome_iff_exists.mp h0
      simp only at hv
      simp only [blendWrites, hv]
      split <;> simp [ih1, ih2]

theorem splatWrites_bounds (blendMapSize splatSize relX relY layerIndex : Int)
    (hB : blendMapSize * blendMapSize ≤ 2147483647) (w : BlendWrite)
    (h : w ∈ splatWrites blendMapSize splatSize relX relY layerIndex) :
    0 ≤ w.index ∧ w.index < blendMapSize * blendMapSize := by
  unfold splatWrites at h
  simp only [List.mem_flatMap] at h
  obtain ⟨y, _, x, _, hw⟩ := h
  split at hw
  · rename_i hg
    simp only [List.mem_singleton] at hw
    subst hw
    obtain ⟨h1, h2, h3, h4⟩ := hg
    simp only
    generalize wrapInt (wrapInt (wrapInt (blendMapSize - 1) - wrapInt (relY * splatSize)) - y)
      = splatY at h3 h4 ⊢
    generalize wrapInt (wrapInt (relX * splatSize) + x) = splatX at h1 h2 ⊢
    have hB0 : 0 ≤ blendMapSize := by omega
    have hm := mul_nonneg h3 hB0
    have hm2 : splatY * blendMapSize + blendMapSize ≤ blendMapSize * blendMapSize := by
      nlinarith
    rw [wrapInt_eq (splatY * blendMapSize) (by omega) (by omega),
      wrapInt_eq (splatY * blendMapSize + splatX) (by omega) (by omega)]
    constructor <;> omega
  · simp at hw

theorem blendWrites_bounds (env : Environment)
    (blendMapSize splatSize cellX cellY fromX fromY : Int) (indexes : List (Nat × Int))
    (hB : blendMapSize * blendMapSize ≤ 2147483647) (win : List (Int × Int)) :
    ∀ w ∈ (blendWrites env blendMapSize splatSize cellX cellY fromX fromY indexes win).writes,
      0 ≤ w.index ∧ w.index < blendMapSize * blendMapSize := by
  induction win with
  | nil => intro w hw; simp [blendWrites] at hw
  | cons xy win ih =>
      obtain ⟨texX, texY⟩ := xy
      intro w hw
      simp only [blendWrites] at hw
      split at hw
      · simp at hw
      · split at hw
        · exact ih w hw
        · simp only at hw
          rcases List.mem_append.mp hw with hw | hw
          · exact splatWrites_bounds _ _ _ _ _ hB w hw
          · exact ih w hw

theorem splatWrites_mem (blendMapSize splatSize relX relY layerIndex x y : Int)
    (hy : y ∈ intRange (-1) (wrapInt (splatSize + 1)))
    (hx : x ∈ intRange (-1) (wrapInt (splatSize + 1)))
    (hg : wrapInt (wrapInt (relX * splatSize) + x) ≥ 0 ∧
      wrapInt (wrapInt (relX * splatSize) + x) < blendMapSize ∧
      wrapInt (wrapInt (wrapInt (blendMapSize - 1) - wrapInt (relY * splatSize)) - y) ≥ 0 ∧
      wrapInt (wrapInt (wrapInt (blendMapSize - 1) - wrapInt (relY * splatSize)) - y)
        < blendMapSize) :
    ({ layerIndex := layerIndex,
       index := wrapInt (wrapInt
         (wrapInt (wrapInt (wrapInt (blendMapSize - 1) - wrapInt (relY * splatSize)) - y) *
           blendMapSize) + wrapInt (wrapInt (relX * splatSize) + x)),
       full := decide (y ≥ 0 ∧ y < splatSize ∧ x ≥ 0 ∧ x < splatSize) } : BlendWrite) ∈
      splatWrites blendMapSize splatSize relX relY layerIndex := by
  unfold splatWrites
  simp only [List.mem_flatMap]
  refine ⟨y, hy, x, hx, ?_⟩
  rw [if_pos hg]
  exact List.mem_singleton.mpr rfl

theorem blendWrites_writes_mem (env : Environment)
    (blendMapSize splatSize cellX cellY fromX fromY : Int) (indexes : List (Nat × Int))
    (texX texY v layerIndex : Int) (w : BlendWrite)
    (hv : getLtexIndexAt env cellX cellY texX texY = some v)
    (hl : mapFind (v % 65536).toNat indexes = some layerIndex)
    (hw : w ∈ splatWrites blendMapSize splatSize (wrapInt (texX - fromX))
      (wrapInt (texY - fromY)) layerIndex)
    (win : List (Int × Int))
    (h : ∀ xy ∈ win, (getLtexIndexAt env cellX cellY xy.1 xy.2).isSome)
    (hm : (texX, texY) ∈ win) :
    w ∈ (blendWrites env blendMapSize splatSize cellX cellY fromX fromY indexes win).writes := by
  induction win with
  | nil => simp at hm
  | cons xy win ih =>
      obtain ⟨x, y⟩ := xy
      have h0 := h (x, y) (List.mem_cons_self _ _)
      obtain ⟨u, hu⟩ := Option.isSome_iff_exists.mp h0
      simp only at hu
      rcases List.mem_cons.mp hm with heq | hm'
      · simp only [Prod.mk.injEq] at heq
        obtain ⟨rfl, rfl⟩ := heq
        rw [hv] at hu
        simp only [Option.some.injEq] at hu
        subst hu
        simp only [blendWrites, hv, hl]
        exact List.mem_append_left _ hw
      · have := ih (fun xy hxy => h xy (List.mem_cons_of_mem _ hxy)) hm'
        simp only [blendWrites, hu]
        split
        · exact this
        · exact List.mem_append_right _ this

theorem mapFind_none_of_lt (k : Nat) (m : List (Nat × Int)) (h : ∀ e ∈ m, e.1 < k) :
    mapFind k m = none := by
  induction m with
  | nil => rfl
  | cons e m ih =>
      obtain ⟨a, w⟩ := e
      have ha : a < k := h (a, w) (List.mem_cons_self _ _)
      simp only [mapFind]
      rw [if_neg (by omega)]
      exact ih (fun e he => h e (List.mem_cons_of_mem _ he))

theorem mapAssign_of_lt (k : Nat) (v : Int) (m : List (Nat × Int)) (h : ∀ e ∈ m, e.1 < k) :
    mapAssign k v m = m ++ [(k, v)] := by
  induction m with
  | nil => rfl
  | cons e m ih =>
      obtain ⟨a, w⟩ := e
      have ha : a < k := h (a, w) (List.mem_cons_self _ _)
      simp only [mapAssign]
      rw [if_neg (by omega), if_neg (by omega),
        ih (fun e he => h e (List.mem_cons_of_mem _ he))]
      rfl

theorem addLtexIndex_new (env : Environment) (st : TextureState) (i : Nat)
    (hb : (i : Int) ≠ st.baseTexture) (hm : ∀ e ∈ st.indexes, e.1 < i) :
    addLtexIndex env st i =
      if landTextKnown env i then
        some (if st.baseTexture = -1 then
            { baseTexture := i, layerList := st.layerList ++ [layerOf env i],
              indexes := st.indexes }
          else
            { baseTexture := st.baseTexture, layerList := st.layerList ++ [layerOf env i],
              indexes := st.indexes ++ [(i, (st.layerList.length : Int))] })
      else none := by
  unfold addLtexIndex
  rw [if_neg hb, mapFind_none_of_lt i st.indexes hm]
  by_cases hk : landTextKnown env i
  · rw [if_pos hk]
    obtain ⟨hsize, htex⟩ := hk
    simp only [hsize, not_true_eq_false, if_false]
    have htexture : (if i = 0 then some "_land_default.dds"
        else (env.landTexts ((i : Int) - 1)).map ddsName) = some (layerTexture env i) := by
      unfold layerTexture
      by_cases h0 : i = 0
      · simp [h0]
      · rcases htex with h | h
        · exact absurd h h0
        · obtain ⟨t, ht⟩ := Option.isSome_iff_exists.mp h
          simp [h0, ht]
    rw [htexture]
    simp only [mapAssign_of_lt i _ st.indexes hm, layerOf]
    split <;> rfl
  · rw [if_neg hk]
    unfold landTextKnown at hk
    by_cases hsize : env.landTextsSize ≥ (i : Int) - 1
    · have h0 : ¬ i = 0 := fun h => hk ⟨hsize, Or.inl h⟩
      have hn : env.landTexts ((i : Int) - 1) = none := by
        cases h : env.landTexts ((i : Int) - 1) with
        | none => rfl
        | some t => exact absurd ⟨hsize, Or.inr (by simp [h])⟩ hk
      simp [hsize, h0, hn]
    · simp [hsize]

theorem addLtexIndexes_sorted (env : Environment) (l : List Nat) :
    ∀ (b : Nat) (ls : List LayerInstance) (m : List (Nat × Int)),
      l.Sorted (· < ·) → (∀ k ∈ l, b < k) → (∀ k ∈ l, ∀ e ∈ m, e.1 < k) →
      addLtexIndexes env l { baseTexture := (b : Int), layerList := ls, indexes := m } =
        if (∀ k ∈ l, landTextKnown env k) then
          some { baseTexture := (b : Int), layerList := ls ++ l.map (layerOf env),
                 indexes := m ++ l.zip ((List.range' ls.length l.length).map Int.ofNat) }
        else none := by
  induction l with
  | nil => intro b ls m _ _ _; simp [addLtexIndexes]
  | cons i l ih =>
      intro b ls m hs hb hm
      have hi : b < i := hb i (List.mem_cons_self _ _)
      have hne : ((i : Nat) : Int) ≠ ((b : Nat) : Int) := by omega
      have hb1 : ((b : Nat) : Int) ≠ -1 := by omega
      have e := addLtexIndex_new env
        { baseTexture := (b : Int), layerList := ls, indexes := m } i hne
        (fun e he => hm i (List.mem_cons_self _ _) e he)
      simp only [hb1, if_false] at e
      simp only [addLtexIndexes, e]
      by_cases hk : landTextKnown env i
      · simp only [hk, if_true, List.forall_mem_cons, true_and]
        rw [ih b (ls ++ [layerOf env i]) (m ++ [(i, (ls.length : Int))])
          (List.sorted_cons.mp hs).2 (fun k hk' => hb k (List.mem_cons_of_mem _ hk')) ?_]
        · by_cases hall : ∀ k ∈ l, landTextKnown env k
          · simp [hall, List.range'_succ, List.length_append]
          · simp [hall]
        · intro k hk' e he
          rcases List.mem_append.mp he with he | he
          · exact hm k (List.mem_cons_of_mem _ hk') e he
          · simp only [List.mem_singleton] at he
            subst he
            exact List.rel_of_sorted_cons hs k hk'
      · simp [hk]

theorem addLtexIndexes_fresh (env : Environment) (l : List Nat) (hs : l.Sorted (· < ·)) :
    (addLtexIndexes env l { baseTexture := -1, layerList := [], indexes := [] }).map
        (fun st => (st.layerList, st.indexes)) =
      if (∀ k ∈ l, landTextKnown env k) then
        some (l.map (layerOf env),
          l.tail.zip ((List.range' 1 (l.length - 1)).map Int.ofNat))
      else none := by
  cases l with
  | nil => simp [addLtexIndexes]
  | cons i l =>
      have hne : ((i : Nat) : Int) ≠ -1 := by omega
      have e := addLtexIndex_new env { baseTexture := -1, layerList := [], indexes := [] } i
        hne (by simp)
      simp only [if_true] at e
      simp only [addLtexIndexes, e]
      by_cases hk : landTextKnown env i
      · simp only [hk, if_true, List.forall_mem_cons, true_and]
        rw [addLtexIndexes_sorted env l i _ [] (List.sorted_cons.mp hs).2
          (fun k hk' => List.rel_of_sorted_cons hs k hk') (by simp)]
        by_cases hall : ∀ k ∈ l, landTextKnown env k
        · simp [hall]
        · simp [hall]
      · simp [hk]

theorem initTerrainTextures_result (env : Environment) (cellX cellY fromX fromY size : Int)
    (hL : 1 ≤ env.LAND_TEXTURE_SIZE) (hL2 : 2 * env.LAND_TEXTURE_SIZE ≤ 2147483647)
    (hfx : 0 ≤ fromX) (hfy : 0 ≤ fromY) (hmx : fromX ≤ 2147483647) (hmy : fromY ≤ 2147483647)
    (hs : -2147483648 ≤ size)
    (hsx : fromX + size ≤ env.LAND_TEXTURE_SIZE) (hsy : fromY + size ≤ env.LAND_TEXTURE_SIZE) :
    ∃ s : List Nat, s.Sorted (· < ·) ∧
      (∀ v, v ∈ s ↔ ∃ x y,
        ((fromX - 1 ≤ x ∧ x ≤ fromX + size) ∧ (fromY - 1 ≤ y ∧ y ≤ fromY + size)) ∧
          sampledLtexIndex env cellX cellY (x, y) = v) ∧
      (initTerrainTextures env [] cellX cellY fromX fromY size []).result =
        if (∀ k ∈ s, landTextKnown env k) then
          some (s.map (layerOf env),
            s.tail.zip ((List.range' 1 (s.length - 1)).map Int.ofNat))
        else none := by
  obtain ⟨_, s, e, hs', hm⟩ := collectLtexIndexes_spec env cellX cellY
    (ltexWindow fromX fromY size)
    (window_calls_isSome env cellX cellY fromX fromY size hL hL2 hfx hfy hmx hmy hs hsx hsy) []
    List.sorted_nil
  simp only [List.not_mem_nil, false_or] at hm
  refine ⟨s, hs', ?_, ?_⟩
  · intro v
    rw [hm v]
    constructor
    · rintro ⟨⟨x, y⟩, hxy, hv⟩
      exact ⟨x, y, (mem_ltexWindow fromX fromY size x y hfx hfy hmx hmy hs (by omega)
        (by omega)).mp hxy, hv⟩
    · rintro ⟨x, y, hb, hv⟩
      exact ⟨(x, y), (mem_ltexWindow fromX fromY size x y hfx hfy hmx hmy hs (by omega)
        (by omega)).mpr hb, hv⟩
  · obtain ⟨a1, a2⟩ := texture_asserts _ fromX fromY size hL2 hfx hfy hs hsx hsy
    have hf := addLtexIndexes_fresh env s hs'
    unfold initTerrainTextures
    rw [if_neg (not_not.mpr a1), if_neg (not_not.mpr a2)]
    simp only [e]
    cases h : addLtexIndexes env s { baseTexture := -1, layerList := [], indexes := [] } with
    | none =>
        rw [h] at hf
        simpa using hf
    | some st =>
        rw [h] at hf
        simpa using hf

theorem mapFind_none_of_ne (k : Nat) (m : List (Nat × Int)) (h : ∀ e ∈ m, e.1 ≠ k) :
    mapFind k m = none := by
  induction m with
  | nil => rfl
  | cons e m ih =>
      obtain ⟨a, w⟩ := e
      have ha : a ≠ k := h (a, w) (List.mem_cons_self _ _)
      rw [mapFind, if_neg ha]
      exact ih (fun e he => h e (List.mem_cons_of_mem _ he))

theorem mapFind_zip_range (l : List Nat) :
    ∀ (start j k : Nat), l.Sorted (· < ·) → l[j]? = some k →
      mapFind k (l.zip ((List.range' start l.length).map Int.ofNat)) =
        some ((start + j : Nat) : Int) := by
  induction l with
  | nil => intro start j k _ h; simp at h
  | cons a l ih =>
      intro start j k hs h
      cases j with
      | zero =>
          simp only [List.getElem?_cons_zero, Option.some.injEq] at h
          subst h
          simp [List.range'_succ, mapFind]
      | succ j =>
          simp only [List.getElem?_cons_succ] at h
          have hk : k ∈ l := List.getElem?_mem h
          have hlt : a < k := List.rel_of_sorted_cons hs k hk
          have hne : ¬ a = k := by omega
          rw [List.length_cons, List.range'_succ, List.map_cons, List.zip_cons_cons, mapFind,
            if_neg hne, ih (start + 1) j k (List.sorted_cons.mp hs).2 h]
          congr 2
          omega

theorem layers_and_indexes_shape (env : Environment) (s : List Nat) (hs : s.Sorted (· < ·)) :
    (s.tail.zip ((List.range' 1 (s.length - 1)).map Int.ofNat)).map Prod.fst = s.tail ∧
    (s.tail.zip ((List.range' 1 (s.length - 1)).map Int.ofNat)).map Prod.snd =
      (List.range' 1 (s.length - 1)).map Int.ofNat ∧
    (s.tail.zip ((List.range' 1 (s.length - 1)).map Int.ofNat)).length = s.length - 1 ∧
    (∀ k, s[0]? = some k →
      mapFind k (s.tail.zip ((List.range' 1 (s.length - 1)).map Int.ofNat)) = none ∧
        (s.map (layerOf env))[0]? = some (layerOf env k)) ∧
    (∀ j k : Nat, s[j]? = some k → 0 < j →
      mapFind k (s.tail.zip ((List.range' 1 (s.length - 1)).map Int.ofNat)) = some (j : Int) ∧
        (s.map (layerOf env))[j]? = some (layerOf env k)) := by
  refine ⟨?_, ?_, ?_, ?_, ?_⟩
  · apply List.map_fst_zip
    simp
  · apply List.map_snd_zip
    simp
  · simp
  · intro k h0
    cases s with
    | nil => simp at h0
    | cons a t =>
        simp only [List.getElem?_cons_zero, Option.some.injEq] at h0
        subst h0
        refine ⟨?_, by simp⟩
        apply mapFind_none_of_ne
        intro e he
        have := (List.of_mem_zip he).1
        simp only [List.tail_cons] at this
        have hlt := List.rel_of_sorted_cons hs e.1 this
        omega
  · intro j k hj hpos
    cases s with
    | nil => simp at hj
    | cons a t =>
        cases j with
        | zero => omega
        | succ j =>
            simp only [List.getElem?_cons_succ] at hj
            refine ⟨?_, ?_⟩
            · have := mapFind_zip_range t 1 j k (List.sorted_cons.mp hs).2 hj
              simp only [List.tail_cons, List.length_cons, Nat.add_sub_cancel]
              rw [this]
              congr 2
              omega
            · simp [List.getElem?_map, hj]

/-! ## Claims -/

/-- C14 (counterexample): with `L = 16`, `cellX = -2147483648` and `x = -1` the asserts hold and
the call looks up the cell `(2147483647, 0)`, not the cell `(cellX + ⌊x/L⌋, 0)`, and returns its
entry 42 where that cell has no land; with `L = 2^17`, `x = 0` and `y = 2^15` the entry read is
the one at index 0 (it is 42), not the one at `(y mod L)·L + (x mod L) = 2^32` (it is 0). -/
theorem C14_getLtexIndexAt_counterexample :
    (getLtexIndexAt farCellEnvironment (-2147483648) 0 (-1) 0 = some 42 ∧
      getLtexIndexAt farCellEnvironment (-2147483648) 0 (-1) 0 ≠
        some (match farCellEnvironment.lands
            (-2147483648 + Int.fdiv (-1) farCellEnvironment.LAND_TEXTURE_SIZE)
            (0 + Int.fdiv 0 farCellEnvironment.LAND_TEXTURE_SIZE) with
          | some land =>
              (land.textures
                (Int.fmod 0 farCellEnvironment.LAND_TEXTURE_SIZE *
                    farCellEnvironment.LAND_TEXTURE_SIZE +
                  Int.fmod (-1) farCellEnvironment.LAND_TEXTURE_SIZE) : Int)
          | none => 0)) ∧
    (getLtexIndexAt wideGridEnvironment 0 0 0 32768 = some 42 ∧
      getLtexIndexAt wideGridEnvironment 0 0 0 32768 ≠
        some (match wideGridEnvironment.lands
            (0 + Int.fdiv 0 wideGridEnvironment.LAND_TEXTURE_SIZE)
            (0 + Int.fdiv 32768 wideGridEnvironment.LAND_TEXTURE_SIZE) with
          | some land =>
              (land.textures
                (Int.fmod 32768 wideGridEnvironment.LAND_TEXTURE_SIZE *
                    wideGridEnvironment.LAND_TEXTURE_SIZE +
                  Int.fmod 0 wideGridEnvironment.LAND_TEXTURE_SIZE) : Int)
          | none => 0)) := by
  decide

/-- C14 (amended): for a texture grid of size `L ≥ 1` with `L·L` in the range of `int` and all
`cellX`, `cellY` strictly between the least and the greatest `int`, and all `x`, `y` with
`-L ≤ x < 2L` and `-L ≤ y < 2L`, `getLtexIndexAt` looks up the land of the cell
`(cellX + ⌊x/L⌋, cellY + ⌊y/L⌋)`; when that land exists the result is its texture entry at index
`(y mod L)·L + (x mod L)`, which lies in `[0, L·L)`, and otherwise the result is 0. -/
theorem C14_getLtexIndexAt (env : Environment) (cellX cellY x y : Int)
    (hL : 1 ≤ env.LAND_TEXTURE_SIZE)
    (hLL : env.LAND_TEXTURE_SIZE * env.LAND_TEXTURE_SIZE ≤ 2147483647)
    (hcx₁ : -2147483648 < cellX) (hcx₂ : cellX < 2147483647)
    (hcy₁ : -2147483648 < cellY) (hcy₂ : cellY < 2147483647)
    (hx₁ : -env.LAND_TEXTURE_SIZE ≤ x) (hx₂ : x < 2 * env.LAND_TEXTURE_SIZE)
    (hy₁ : -env.LAND_TEXTURE_SIZE ≤ y) (hy₂ : y < 2 * env.LAND_TEXTURE_SIZE) :
    getLtexIndexAt env cellX cellY x y =
      some (match env.lands (cellX + Int.fdiv x env.LAND_TEXTURE_SIZE)
                (cellY + Int.fdiv y env.LAND_TEXTURE_SIZE) with
        | some land =>
            (land.textures (Int.fmod y env.LAND_TEXTURE_SIZE * env.LAND_TEXTURE_SIZE +
              Int.fmod x env.LAND_TEXTURE_SIZE) : Int)
        | none => 0) ∧
    0 ≤ Int.fmod y env.LAND_TEXTURE_SIZE * env.LAND_TEXTURE_SIZE +
        Int.fmod x env.LAND_TEXTURE_SIZE ∧
    Int.fmod y env.LAND_TEXTURE_SIZE * env.LAND_TEXTURE_SIZE +
        Int.fmod x env.LAND_TEXTURE_SIZE <
      env.LAND_TEXTURE_SIZE * env.LAND_TEXTURE_SIZE := by
  exact getLtexIndexAt_value env cellX cellY x y hL hLL hcx₁ hcx₂ hcy₁ hcy₂ hx₁ hx₂ hy₁ hy₂

/-- C14 at a concrete input: in the example world (`L = 2`) the position `(1, 1)` of the cell
(0, 0) has index `1·2 + 1 = 3`, whose entry is 6. -/
theorem C14_getLtexIndexAt_witness :
    getLtexIndexAt exampleEnvironment 0 0 1 1 = some 6 :=
  (C14_getLtexIndexAt exampleEnvironment 0 0 1 1 (by decide) (by decide) (by decide)
    (by decide) (by decide) (by decide) (by decide) (by decide) (by decide)
    (by decide)).1.trans (by decide)

/-- C15 (counterexample): with a texture grid of size `2^30` the asserts of
`initTerrainTextures` hold for `fromX = fromY = size = 0`, yet its first call of
`getLtexIndexAt`, at `(-1, -1)`, fails the assert `x < 2*LAND_TEXTURE_SIZE` and stops it; and
with a blend map of size 50000 `initTerrainBlendMaps` writes at a negative index. -/
theorem C15_asserts_and_blend_indices_counterexample :
    ((1 : Int) ≤ hugeGridEnvironment.LAND_TEXTURE_SIZE ∧
      (0 : Int) + 0 ≤ hugeGridEnvironment.LAND_TEXTURE_SIZE ∧
      (initTerrainTextures hugeGridEnvironment [] 0 0 0 0 0 []).calls = [(-1, -1)] ∧
      getLtexIndexAt hugeGridEnvironment 0 0 (-1) (-1) = none) ∧
    ((0 : Int) + 1 ≤ emptyEnvironment.LAND_TEXTURE_SIZE ∧
      ¬ (∀ w ∈ (initTerrainBlendMaps emptyEnvironment 50000 0 0 0 0 1 [(0, 1)]).writes,
        0 ≤ w.index ∧ w.index < 50000 * 50000)) := by
  refine ⟨by decide, by decide, ?_⟩
  intro h
  have hw : ({ layerIndex := 1, index := -1795017296, full := true } : BlendWrite) ∈
      (initTerrainBlendMaps emptyEnvironment 50000 0 0 0 0 1 [(0, 1)]).writes := by
    have e : initTerrainBlendMaps emptyEnvironment 50000 0 0 0 0 1 [(0, 1)] =
        blendWrites emptyEnvironment 50000 50000 0 0 0 0 [(0, 1)] (ltexWindow 0 0 1) := by
      unfold initTerrainBlendMaps
      rw [if_neg (by decide), if_neg (by decide), if_neg (by decide), if_neg (by decide)]
      rfl
    rw [e]
    refine blendWrites_writes_mem emptyEnvironment 50000 50000 0 0 0 0 [(0, 1)] 0 0 0 1 _
      (by decide) (by decide) ?_ (ltexWindow 0 0 1) (by decide) (by decide)
    have hm := splatWrites_mem 50000 50000 (wrapInt (0 - 0)) (wrapInt (0 - 0)) 1 0 0
      ((mem_intRange _ _ _).mpr (by decide)) ((mem_intRange _ _ _).mpr (by decide))
      (by decide)
    have hi : wrapInt (wrapInt
        (wrapInt (wrapInt (wrapInt (50000 - 1) - wrapInt (wrapInt (0 - 0) * 50000)) - 0) *
          50000) + wrapInt (wrapInt (wrapInt (0 - 0) * 50000) + 0)) = -1795017296 := by
      decide
    have hf : decide ((0 : Int) ≥ 0 ∧ (0 : Int) < 50000 ∧ (0 : Int) ≥ 0 ∧ (0 : Int) < 50000)
        = true := by decide
    rw [hi, hf] at hm
    exact hm
  have := (h _ hw).1
  simp at this

/-- C15 (amended): whenever the asserts of `initTerrainTextures` and `initTerrainBlendMaps`
hold (`fromX ≥ 0`, `fromY ≥ 0`, `fromX + size ≤ L`, `fromY + size ≤ L`, with `L ≥ 1` and
`size ≥ 0`) and `2·L` is in the range of `int`, the calls of `getLtexIndexAt` that
`initTerrainTextures` makes are exactly those with `x` in `[fromX - 1, fromX + size]` and `y` in
`[fromY - 1, fromY + size]`, those that `initTerrainBlendMaps` makes lie in the same window (and
are all of it when `size` is a power of two, in which case the function runs to its end), and
every call in that window satisfies the asserts of `getLtexIndexAt` (`-L ≤ x < 2L`,
`-L ≤ y < 2L`) and returns a value; when `blendMapSize²` is in the range of `int`, every
assignment `pBlend[index]` of `initTerrainBlendMaps` has `0 ≤ index < blendMapSize²`. -/
theorem C15_asserts_and_blend_indices (env : Environment) (layerList : List LayerInstance)
    (cellX cellY fromX fromY size blendMapSize : Int) (indexes : List (Nat × Int))
    (hL : 1 ≤ env.LAND_TEXTURE_SIZE) (hL2 : 2 * env.LAND_TEXTURE_SIZE ≤ 2147483647)
    (hfx : 0 ≤ fromX) (hfy : 0 ≤ fromY)
    (hsx : fromX + size ≤ env.LAND_TEXTURE_SIZE) (hsy : fromY + size ≤ env.LAND_TEXTURE_SIZE)
    (hs : 0 ≤ size) :
    (∀ x y,
      (x, y) ∈ (initTerrainTextures env layerList cellX cellY fromX fromY size indexes).calls ↔
        ((fromX - 1 ≤ x ∧ x ≤ fromX + size) ∧ (fromY - 1 ≤ y ∧ y ≤ fromY + size))) ∧
    (∀ x y,
      (x, y) ∈ (initTerrainBlendMaps env blendMapSize cellX cellY fromX fromY size
        indexes).calls →
        ((fromX - 1 ≤ x ∧ x ≤ fromX + size) ∧ (fromY - 1 ≤ y ∧ y ≤ fromY + size))) ∧
    ((size ≠ 0 ∧ Int.land size (size - 1) = 0) →
      (∀ x y,
        (x, y) ∈ (initTerrainBlendMaps env blendMapSize cellX cellY fromX fromY size
          indexes).calls ↔
          ((fromX - 1 ≤ x ∧ x ≤ fromX + size) ∧ (fromY - 1 ≤ y ∧ y ≤ fromY + size))) ∧
      (initTerrainBlendMaps env blendMapSize cellX cellY fromX fromY size indexes).completed
        = true) ∧
    (∀ x y, ((fromX - 1 ≤ x ∧ x ≤ fromX + size) ∧ (fromY - 1 ≤ y ∧ y ≤ fromY + size)) →
      (-env.LAND_TEXTURE_SIZE ≤ x ∧ x < 2 * env.LAND_TEXTURE_SIZE) ∧
      (-env.LAND_TEXTURE_SIZE ≤ y ∧ y < 2 * env.LAND_TEXTURE_SIZE) ∧
      (getLtexIndexAt env cellX cellY x y).isSome) ∧
    (blendMapSize * blendMapSize ≤ 2147483647 →
      ∀ w ∈ (initTerrainBlendMaps env blendMapSize cellX cellY fromX fromY size indexes).writes,
        0 ≤ w.index ∧ w.index < blendMapSize * blendMapSize) := by
  have hmx : fromX ≤ 2147483647 := by omega
  have hmy : fromY ≤ 2147483647 := by omega
  have hs' : -2147483648 ≤ size := by omega
  have hwin := fun x y =>
    mem_ltexWindow fromX fromY size x y hfx hfy hmx hmy hs' (by omega) (by omega)
  have hok := window_calls_isSome env cellX cellY fromX fromY size hL hL2 hfx hfy hmx hmy hs'
    hsx hsy
  obtain ⟨a1, a2⟩ := texture_asserts _ fromX fromY size hL2 hfx hfy hs' hsx hsy
  have hw1 : wrapInt (size - 1) = size - 1 := wrapInt_eq _ (by omega) (by omega)
  refine ⟨?_, ?_, ?_, ?_, ?_⟩
  · intro x y
    rw [initTerrainTextures_calls env layerList cellX cellY fromX fromY size indexes hL hL2
      hfx hfy hmx hmy hs' hsx hsy]
    exact hwin x y
  · intro x y hc
    unfold initTerrainBlendMaps at hc
    rw [if_neg (not_not.mpr a1), if_neg (not_not.mpr a2), hw1] at hc
    split at hc
    · simp at hc
    · split at hc
      · simp at hc
      · rw [(blendWrites_ok env _ _ cellX cellY fromX fromY indexes _ hok).1] at hc
        exact (hwin x y).mp hc
  · rintro ⟨h0, hp⟩
    unfold initTerrainBlendMaps
    rw [if_neg (not_not.mpr a1), if_neg (not_not.mpr a2), hw1, if_neg (not_not.mpr hp),
      if_neg h0]
    obtain ⟨e1, e2⟩ := blendWrites_ok env blendMapSize (Int.tdiv blendMapSize size) cellX cellY
      fromX fromY indexes _ hok
    refine ⟨?_, e2⟩
    intro x y
    rw [e1]
    exact hwin x y
  · intro x y hb
    refine ⟨by omega, by omega, ?_⟩
    exact getLtexIndexAt_isSome env cellX cellY x y hL hL2 (by omega) (by omega) (by omega)
      (by omega)
  · intro hB w hw
    unfold initTerrainBlendMaps at hw
    rw [if_neg (not_not.mpr a1), if_neg (not_not.mpr a2)] at hw
    split at hw
    · simp at hw
    · split at hw
      · simp at hw
      · exact blendWrites_bounds _ _ _ _ _ _ _ _ hB _ w hw

/-- C15 at a concrete input: in the example world the call with `fromX = fromY = 0`, `size = 2`
and a blend map of size 4 samples the corner `(-1, 2)`, where the asserts of `getLtexIndexAt`
hold, runs to its end, and its write to index 12 of the blend map of layer 1 lies inside the
blend map. -/
theorem C15_asserts_and_blend_indices_witness :
    ((-1, 2) ∈ (initTerrainTextures exampleEnvironment [] 0 0 0 0 2 [(3, 1)]).calls) ∧
    (initTerrainBlendMaps exampleEnvironment 4 0 0 0 0 2 [(3, 1)]).completed = true ∧
    (getLtexIndexAt exampleEnvironment 0 0 (-1) 2).isSome ∧
    ((0 : Int) ≤ (BlendWrite.mk 1 12 true).index ∧
      (BlendWrite.mk 1 12 true).index < 4 * 4) :=
  have h := C15_asserts_and_blend_indices exampleEnvironment [] 0 0 0 0 2 4 [(3, 1)]
    (by decide) (by decide) (by decide) (by decide) (by decide) (by decide) (by decide)
  ⟨(h.1 (-1) 2).mpr (by decide), (h.2.2.1 ⟨by decide, by decide⟩).2,
    (h.2.2.2.1 (-1) 2 (by decide)).2.2,
    h.2.2.2.2 (by decide) (BlendWrite.mk 1 12 true) (by decide)⟩

/-- C16: called with an empty map `indexes` and an empty layer list, with its asserts satisfied
(`fromX ≥ 0`, `fromY ≥ 0`, `fromX + size ≤ L`, `fromY + size ≤ L`) for a texture grid of size
`L ≥ 1`, the arguments and `2·L` being in the range of `int`, `initTerrainTextures` calls
`getLtexIndexAt` exactly at the positions of the window `x` in `[fromX - 1, fromX + size]`, `y`
in `[fromY - 1, fromY + size]`, and appends, whenever it returns, one layer per distinct ltex
index sampled there, in ascending order of the index (`s` below is the ascending list of the
distinct sampled indices).  The smallest index is the base texture: its layer is at position 0
and it is no key of `indexes`; every other sampled index is a key of `indexes` and is mapped to
the position of its own layer, so that for `n` distinct indices the map has `n - 1` entries with
the values `1, ..., n - 1`, increasing with the ltex index.  It does return when the store knows
the land texture of every sampled index. -/
theorem C16_layers_and_indexes (env : Environment) (cellX cellY fromX fromY size : Int)
    (hL : 1 ≤ env.LAND_TEXTURE_SIZE) (hL2 : 2 * env.LAND_TEXTURE_SIZE ≤ 2147483647)
    (hfx : 0 ≤ fromX) (hfy : 0 ≤ fromY) (hmx : fromX ≤ 2147483647) (hmy : fromY ≤ 2147483647)
    (hs : -2147483648 ≤ size)
    (hsx : fromX + size ≤ env.LAND_TEXTURE_SIZE) (hsy : fromY + size ≤ env.LAND_TEXTURE_SIZE) :
    (∀ x y, (x, y) ∈ (initTerrainTextures env [] cellX cellY fromX fromY size []).calls ↔
      ((fromX - 1 ≤ x ∧ x ≤ fromX + size) ∧ (fromY - 1 ≤ y ∧ y ≤ fromY + size))) ∧
    ∃ s : List Nat,
      s.Sorted (· < ·) ∧
      (∀ v, v ∈ s ↔ ∃ x y,
        ((fromX - 1 ≤ x ∧ x ≤ fromX + size) ∧ (fromY - 1 ≤ y ∧ y ≤ fromY + size)) ∧
          sampledLtexIndex env cellX cellY (x, y) = v) ∧
      ((∀ x y, ((fromX - 1 ≤ x ∧ x ≤ fromX + size) ∧ (fromY - 1 ≤ y ∧ y ≤ fromY + size)) →
          landTextKnown env (sampledLtexIndex env cellX cellY (x, y))) →
        (initTerrainTextures env [] cellX cellY fromX fromY size []).result.isSome) ∧
      (∀ (layers : List LayerInstance) (indexes : List (Nat × Int)),
        (initTerrainTextures env [] cellX cellY fromX fromY size []).result =
            some (layers, indexes) →
          layers = s.map (layerOf env) ∧
          indexes = s.tail.zip ((List.range' 1 (s.length - 1)).map Int.ofNat) ∧
          indexes.map Prod.fst = s.tail ∧
          indexes.map Prod.snd = (List.range' 1 (s.length - 1)).map Int.ofNat ∧
          indexes.length = s.length - 1 ∧
          (∀ k, s[0]? = some k →
            mapFind k indexes = none ∧ layers[0]? = some (layerOf env k)) ∧
          (∀ j k : Nat, s[j]? = some k → 0 < j →
            mapFind k indexes = some (j : Int) ∧ layers[j]? = some (layerOf env k))) := by
  obtain ⟨s, hs', hm, e⟩ :=
    initTerrainTextures_result env cellX cellY fromX fromY size hL hL2 hfx hfy hmx hmy hs hsx hsy
  refine ⟨?_, s, hs', hm, ?_, ?_⟩
  · intro x y
    rw [initTerrainTextures_calls env [] cellX cellY fromX fromY size [] hL hL2 hfx hfy hmx hmy
      hs hsx hsy]
    exact mem_ltexWindow fromX fromY size x y hfx hfy hmx hmy hs (by omega) (by omega)
  · intro hk
    have hall : ∀ k ∈ s, landTextKnown env k := by
      intro k hks
      obtain ⟨x, y, hb, rfl⟩ := (hm k).mp hks
      exact hk x y hb
    rw [e, if_pos hall]
    rfl
  · intro layers indexes hr
    rw [e] at hr
    split at hr
    · simp only [Option.some.injEq, Prod.mk.injEq] at hr
      obtain ⟨rfl, rfl⟩ := hr
      obtain ⟨h1, h2, h3, h4, h5⟩ := layers_and_indexes_shape env s hs'
      exact ⟨rfl, rfl, h1, h2, h3, h4, h5⟩
    · simp at hr

/-- C16 at a concrete input: in the example world the call with `fromX = fromY = size = 0` in
the cell (0, 0) returns, and the ascending list of its sampled indices describes the layers and
the map as stated. -/
theorem C16_layers_and_indexes_witness :
    (∀ x y, (x, y) ∈ (initTerrainTextures exampleEnvironment [] 0 0 0 0 0 []).calls ↔
      ((((0 : Int) - 1 ≤ x ∧ x ≤ 0 + 0) ∧ ((0 : Int) - 1 ≤ y ∧ y ≤ 0 + 0)))) ∧
    ∃ s : List Nat,
      s.Sorted (· < ·) ∧
      (∀ v, v ∈ s ↔ ∃ x y,
        (((0 : Int) - 1 ≤ x ∧ x ≤ 0 + 0) ∧ ((0 : Int) - 1 ≤ y ∧ y ≤ 0 + 0)) ∧
          sampledLtexIndex exampleEnvironment 0 0 (x, y) = v) ∧
      ((∀ x y, ((((0 : Int) - 1 ≤ x ∧ x ≤ 0 + 0) ∧ ((0 : Int) - 1 ≤ y ∧ y ≤ 0 + 0)) →
          landTextKnown exampleEnvironment (sampledLtexIndex exampleEnvironment 0 0 (x, y)))) →
        (initTerrainTextures exampleEnvironment [] 0 0 0 0 0 []).result.isSome) ∧
      (∀ (layers : List LayerInstance) (indexes : List (Nat × Int)),
        (initTerrainTextures exampleEnvironment [] 0 0 0 0 0 []).result =
            some (layers, indexes) →
          layers = s.map (layerOf exampleEnvironment) ∧
          indexes = s.tail.zip ((List.range' 1 (s.length - 1)).map Int.ofNat) ∧
          indexes.map Prod.fst = s.tail ∧
          indexes.map Prod.snd = (List.range' 1 (s.length - 1)).map Int.ofNat ∧
          indexes.length = s.length - 1 ∧
          (∀ k, s[0]? = some k →
            mapFind k indexes = none ∧ layers[0]? = some (layerOf exampleEnvironment k)) ∧
          (∀ j k : Nat, s[j]? = some k → 0 < j →
            mapFind k indexes = some (j : Int) ∧
              layers[j]? = some (layerOf exampleEnvironment k))) :=
  C16_layers_and_indexes exampleEnvironment 0 0 0 0 0 (by decide) (by decide) (by decide)
    (by decide) (by decide) (by decide) (by decide) (by decide) (by decide)

end MWRender

/-!
# Message boxes: theorems
-/

namespace MWGui

open MessageBoxManager

/-! ## Helper lemmas -/

theorem mem_deleteBox (b x : Nat) (l : List Nat) : x ∈ deleteBox b l ↔ x ∈ l ∧ x ≠ b := by
  simp [deleteBox]

theorem eraseMarked_sublist (boxes : List Nat) :
    ∀ marked live r, eraseMarked boxes marked live = some r → r.1.Sublist boxes := by
  induction boxes with
  | nil =>
      intro marked live r h
      simp only [eraseMarked, Option.some.injEq] at h
      subst h
      exact List.Sublist.refl _
  | cons b bs ih =>
      intro marked live r h
      simp only [eraseMarked] at h
      split at h
      · split at h
        · exact (ih _ _ r h).cons b
        · split at h
          · rename_i rest marked1 live1 hrest
            simp only [Option.some.injEq] at h
            subst h
            exact (ih _ _ _ hrest).cons₂ b
          · simp at h
      · simp at h

theorem eraseMarked_live_of_not_mem (boxes : List Nat) :
    ∀ marked live r, eraseMarked boxes marked live = some r →
      ∀ x ∈ live, x ∉ boxes → x ∈ r.2.2 := by
  induction boxes with
  | nil =>
      intro marked live r h x hx _
      simp only [eraseMarked, Option.some.injEq] at h
      subst h
      exact hx
  | cons b bs ih =>
      intro marked live r h x hx hnot
      simp only [List.mem_cons, not_or] at hnot
      simp only [eraseMarked] at h
      split at h
      · split at h
        · exact ih _ _ r h x ((mem_deleteBox b x live).mpr ⟨hx, hnot.1⟩) hnot.2
        · split at h
          · rename_i rest marked1 live1 hrest
            simp only [Option.some.injEq] at h
            subst h
            exact ih _ _ _ hrest x hx hnot.2
          · simp at h
      · simp at h

theorem eraseMarked_owned (boxes : List Nat) :
    ∀ marked live r, eraseMarked boxes marked live = some r → boxes.Nodup →
      ∀ x ∈ r.1, x ∈ r.2.2 := by
  induction boxes with
  | nil =>
      intro marked live r h _ x hx
      simp only [eraseMarked, Option.some.injEq] at h
      subst h
      simp at hx
  | cons b bs ih =>
      intro marked live r h hnd x hx
      obtain ⟨hb, hnd'⟩ := List.nodup_cons.mp hnd
      simp only [eraseMarked] at h
      split at h
      · rename_i hlive
        split at h
        · exact ih _ _ r h hnd' x hx
        · split at h
          · rename_i rest marked1 live1 hrest
            simp only [Option.some.injEq] at h
            subst h
            rcases List.mem_cons.mp hx with rfl | hx'
            · exact eraseMarked_live_of_not_mem bs _ _ _ hrest x hlive hb
            · exact ih _ _ _ hrest hnd' x hx'
          · simp at h
      · simp at h

theorem onFrameLoop_owned {F : Type} (ops : FloatOps F) (frameDuration : F)
    (ts : List (MessageBoxManagerTimer F)) :
    ∀ boxes marked live r, onFrameLoop ops frameDuration ts boxes marked live = some r →
      boxes.Nodup → (∀ b ∈ boxes, b ∈ live) →
        r.2.1.Sublist boxes ∧ ∀ b ∈ r.2.1, b ∈ r.2.2.2 := by
  induction ts with
  | nil =>
      intro boxes marked live r h _ hl
      simp only [onFrameLoop, Option.some.injEq] at h
      subst h
      exact ⟨List.Sublist.refl _, hl⟩
  | cons t ts ih =>
      intro boxes marked live r h hnd hl
      simp only [onFrameLoop] at h
      split at h
      · split at h
        · split at h
          · simp at h
          · rename_i front rest
            split at h
            · split at h
              · rename_i boxes1 marked1 live1 he
                have hsub := eraseMarked_sublist _ _ _ _ he
                have hown := eraseMarked_owned _ _ _ _ he hnd
                obtain ⟨h1, h2⟩ := ih boxes1 marked1 live1 r h (hsub.nodup hnd) hown
                exact ⟨h1.trans hsub, h2⟩
              · simp at h
            · exact ih _ _ _ r h hnd hl
        · simp at h
      · split at h
        · rename_i ts1 r1 hr
          simp only [Option.some.injEq] at h
          subst h
          exact ih _ _ _ (ts1, r1) hr hnd hl
        · simp at h

theorem eraseFirst_sublist (msgbox : Nat) (boxes : List Nat) :
    ∀ rest, eraseFirst msgbox boxes = some rest →
      rest.Sublist boxes ∧ msgbox ∈ boxes ∧ (boxes.Nodup → msgbox ∉ rest) := by
  induction boxes with
  | nil => intro rest h; simp [eraseFirst] at h
  | cons b bs ih =>
      intro rest h
      simp only [eraseFirst] at h
      split at h
      · rename_i hb
        simp only [Option.some.injEq] at h
        subst h
        subst hb
        exact ⟨List.sublist_cons_self _ _, List.mem_cons_self _ _,
          fun hnd => (List.nodup_cons.mp hnd).1⟩
      · rename_i hb
        split at h
        · rename_i r hr
          simp only [Option.some.injEq] at h
          subst h
          obtain ⟨h1, h2, h3⟩ := ih r hr
          refine ⟨h1.cons₂ b, List.mem_cons_of_mem _ h2, ?_⟩
          intro hnd hmem
          rcases List.mem_cons.mp hmem with e | hmem'
          · exact hb e.symm
          · exact h3 (List.nodup_cons.mp hnd).2 hmem'
        · simp at h

theorem dropOldest_boxes (boxes marked live : List Nat) (r : List Nat × List Nat × List Nat)
    (h : dropOldest boxes marked live = some r) :
    r.1 = if boxes.length > 3 then boxes.tail else boxes := by
  unfold dropOldest at h
  by_cases hgt : boxes.length > 3
  · rw [if_pos hgt] at h ⊢
    cases boxes with
    | nil => simp at hgt
    | cons front rest =>
        simp only at h
        split at h
        · simp only [Option.some.injEq] at h
          subst h
          rfl
        · simp at h
  · rw [if_neg hgt] at h ⊢
    simp only [Option.some.injEq] at h
    subst h
    rfl

theorem createMessageBox_owned {F : Type} (ops : FloatOps F) (m m' : MessageBoxManager F)
    (message : String) (box : Nat)
    (h : m.createMessageBox ops message box = some m')
    (hlen : m.mMessageBoxes.length ≤ 3) (hnd : m.mMessageBoxes.Nodup)
    (hl : ∀ b ∈ m.mMessageBoxes, b ∈ m.live) :
    m'.mMessageBoxes.length ≤ 3 ∧ m'.mMessageBoxes.Nodup ∧
      ∀ b ∈ m'.mMessageBoxes, b ∈ m'.live := by
  unfold createMessageBox at h
  split at h
  · simp at h
  · rename_i hbox
    have hnd1 : (m.mMessageBoxes ++ [box]).Nodup := by
      rw [List.nodup_append]
      refine ⟨hnd, List.nodup_singleton _, ?_⟩
      intro a ha hb
      simp only [List.mem_singleton] at hb
      subst hb
      exact hbox (hl a ha)
    simp only [removeMessageBoxAfter] at h
    split at h
    · rename_i boxes marked live hd
      have hb := dropOldest_boxes _ _ _ _ hd
      simp only at hb
      split at h
      · rename_i hall
        simp only [Option.some.injEq] at h
        subst h
        refine ⟨?_, ?_, hall⟩
        · show boxes.length ≤ 3
          rw [hb]
          split
          · simp only [List.length_tail, List.length_append, List.length_singleton]
            omega
          · rename_i hgt
            omega
        · show boxes.Nodup
          rw [hb]
          split
          · exact (List.tail_sublist _).nodup hnd1
          · exact hnd1
      · simp at h
    · simp at h

theorem createMessageBox_defined {F : Type} (ops : FloatOps F) (m : MessageBoxManager F)
    (message : String) (box : Nat) (hbox : box ∉ m.live)
    (hnd : m.mMessageBoxes.Nodup) (hl : ∀ b ∈ m.mMessageBoxes, b ∈ m.live) :
    ∃ m', m.createMessageBox ops message box = some m' ∧
      m'.mMessageBoxes =
        (if m.mMessageBoxes.length < 3 then m.mMessageBoxes ++ [box]
         else (m.mMessageBoxes ++ [box]).tail) := by
  have hne : ∀ b ∈ m.mMessageBoxes, b ≠ box := fun b hb e => hbox (e ▸ hl b hb)
  unfold createMessageBox
  rw [if_neg hbox]
  simp only [removeMessageBoxAfter, dropOldest]
  by_cases hlt : m.mMessageBoxes.length < 3
  · have hgt : ¬ (m.mMessageBoxes ++ [box]).length > 3 := by
      simp only [List.length_append, List.length_singleton]
      omega
    rw [if_neg hgt, if_pos hlt]
    have hall : ∀ b ∈ m.mMessageBoxes ++ [box], b ∈ m.live ++ [box] := by
      intro b hb
      rcases List.mem_append.mp hb with hb | hb
      · exact List.mem_append_left _ (hl b hb)
      · exact List.mem_append_right _ hb
    dsimp only
    rw [if_pos hall]
    exact ⟨_, rfl, rfl⟩
  · have hgt : (m.mMessageBoxes ++ [box]).length > 3 := by
      simp only [List.length_append, List.length_singleton]
      omega
    rw [if_pos hgt, if_neg hlt]
    cases hm : m.mMessageBoxes with
    | nil => rw [hm] at hlt; simp at hlt
    | cons front rest =>
        rw [hm] at hnd hl hne
        obtain ⟨hfr, _⟩ := List.nodup_cons.mp hnd
        have hfl : front ∈ m.live ++ [box] :=
          List.mem_append_left _ (hl front (List.mem_cons_self _ _))
        simp only [List.cons_append, hfl, if_true, List.tail_cons]
        have hall : ∀ b ∈ rest ++ [box], b ∈ deleteBox front (m.live ++ [box]) := by
          intro b hb
          rw [mem_deleteBox]
          rcases List.mem_append.mp hb with hb | hb
          · exact ⟨List.mem_append_left _ (hl b (List.mem_cons_of_mem _ hb)),
              fun e => hfr (e ▸ hb)⟩
          · simp only [List.mem_singleton] at hb
            subst hb
            exact ⟨List.mem_append_right _ (List.mem_singleton_self _),
              fun e => hne front (List.mem_cons_self _ _) e.symm⟩
        rw [if_pos hall]
        exact ⟨_, rfl, rfl⟩

theorem applyCall_owned {F : Type} (ops : FloatOps F) (m m' : MessageBoxManager F)
    (c : ManagerCall F) (h : applyCall ops m c = some m')
    (hlen : m.mMessageBoxes.length ≤ 3) (hnd : m.mMessageBoxes.Nodup)
    (hl : ∀ b ∈ m.mMessageBoxes, b ∈ m.live) :
    m'.mMessageBoxes.length ≤ 3 ∧ m'.mMessageBoxes.Nodup ∧
      ∀ b ∈ m'.mMessageBoxes, b ∈ m'.live := by
  cases c with
  | createMessageBox message box =>
      exact createMessageBox_owned ops m m' message box h hlen hnd hl
  | onFrame frameDuration =>
      simp only [applyCall, onFrame] at h
      split at h
      · rename_i timers boxes marked live hr
        simp only [Option.some.injEq] at h
        subst h
        obtain ⟨h1, h2⟩ := onFrameLoop_owned ops frameDuration _ _ _ _ _ hr hnd hl
        exact ⟨le_trans h1.length_le hlen, h1.nodup hnd, h2⟩
      · simp at h
  | removeMessageBox msgbox =>
      simp only [applyCall, removeMessageBox] at h
      split at h
      · rename_i rest hrest
        obtain ⟨h1, _, h3⟩ := eraseFirst_sublist msgbox _ rest hrest
        split at h
        · simp only [Option.map_some', Option.some.injEq] at h
          subst h
          refine ⟨le_trans h1.length_le hlen, h1.nodup hnd, ?_⟩
          intro b hb
          exact (mem_deleteBox msgbox b m.live).mpr
            ⟨hl b (h1.subset hb), fun e => h3 hnd (e ▸ hb)⟩
        · simp at h
      · simp only [Option.map_some', Option.some.injEq] at h
        subst h
        exact ⟨hlen, hnd, hl⟩
  | removeMessageBoxAfter time msgbox =>
      simp only [applyCall, removeMessageBoxAfter, Option.some.injEq] at h
      subst h
      exact ⟨hlen, hnd, hl⟩

theorem runFrom_owned {F : Type} (ops : FloatOps F) (calls : List (ManagerCall F)) :
    ∀ m m' : MessageBoxManager F, runFrom ops m calls = some m' →
      m.mMessageBoxes.length ≤ 3 → m.mMessageBoxes.Nodup →
      (∀ b ∈ m.mMessageBoxes, b ∈ m.live) →
        m'.mMessageBoxes.length ≤ 3 ∧ m'.mMessageBoxes.Nodup ∧
          ∀ b ∈ m'.mMessageBoxes, b ∈ m'.live := by
  induction calls with
  | nil =>
      intro m m' h hlen hnd hl
      simp only [runFrom, Option.some.injEq] at h
      subst h
      exact ⟨hlen, hnd, hl⟩
  | cons c calls ih =>
      intro m m' h hlen hnd hl
      simp only [runFrom] at h
      split at h
      · rename_i m1 h1
        obtain ⟨a1, a2, a3⟩ := applyCall_owned ops m m1 c h1 hlen hnd hl
        exact ih m1 m' h a1 a2 a3
      · simp at h

theorem removeMessageBox_defined {F : Type} (m : MessageBoxManager F) (msgbox : Nat)
    (hl : ∀ b ∈ m.mMessageBoxes, b ∈ m.live) : (m.removeMessageBox msgbox).isSome = true := by
  unfold removeMessageBox
  split
  · rename_i rest hrest
    obtain ⟨_, h2, _⟩ := eraseFirst_sublist msgbox _ rest hrest
    rw [if_pos (hl msgbox h2)]
    rfl
  · rfl

/-! ## Claims -/

/-- C17: at most three message boxes are kept: the list `mMessageBoxes` of a newly constructed
manager is empty, and in every state `m` reached from it by a sequence of `createMessageBox`,
`onFrame` and `removeMessageBox` calls (of either overload) whose behaviour is defined the list
has at most 3 entries, which are distinct boxes that exist.  In such a state `removeMessageBox`
is defined, and `createMessageBox` with a newly allocated box is defined: on a list that holds
the three boxes `a`, `b`, `c` it removes the oldest box `a` at the front, appends the new box at
the back and keeps `b` and `c` in their order; on a shorter list it appends the new box. -/
theorem C17_at_most_three_boxes {F : Type} (ops : FloatOps F) (calls : List (ManagerCall F))
    (m : MessageBoxManager F) (message : String) (msgbox a b c box : Nat)
    (hrun : runCalls ops calls = some m) :
    (MessageBoxManager.new ops).mMessageBoxes = [] ∧
    m.mMessageBoxes.length ≤ 3 ∧
    m.mMessageBoxes.Nodup ∧
    (∀ x ∈ m.mMessageBoxes, x ∈ m.live) ∧
    (m.removeMessageBox msgbox).isSome = true ∧
    (box ∉ m.live →
      ∃ m', m.createMessageBox ops message box = some m' ∧
        (m.mMessageBoxes = [a, b, c] → m'.mMessageBoxes = [b, c, box]) ∧
        (m.mMessageBoxes.length < 3 → m'.mMessageBoxes = m.mMessageBoxes ++ [box])) := by
  obtain ⟨h1, h2, h3⟩ := runFrom_owned ops calls _ m hrun (by simp [MessageBoxManager.new])
    (by simp [MessageBoxManager.new]) (by simp [MessageBoxManager.new])
  refine ⟨rfl, h1, h2, h3, removeMessageBox_defined m msgbox h3, ?_⟩
  intro hbox
  obtain ⟨m', e1, e2⟩ := createMessageBox_defined ops m message box hbox h2 h3
  refine ⟨m', e1, ?_, ?_⟩
  · intro habc
    rw [e2, habc]
    rfl
  · intro hlt
    rw [e2, if_pos hlt]

/-- C17 at a concrete input: after three `createMessageBox` calls and a frame in which no timer
expires the manager holds the boxes 1, 2, 3, and `createMessageBox` with the new box 4 leaves
it with 2, 3, 4. -/
theorem C17_at_most_three_boxes_witness :
    runCalls exampleOps
      [ManagerCall.createMessageBox "aa" 1, ManagerCall.createMessageBox "bb" 2,
       ManagerCall.createMessageBox "cc" 3, ManagerCall.onFrame 1] =
      some { mMessageBoxes := [1, 2, 3],
             mTimers := [{ current := 1, max := 2, messageBox := 1 },
                         { current := 1, max := 2, messageBox := 2 },
                         { current := 1, max := 2, messageBox := 3 }],
             mMessageBoxSpeed := 1, marked := [], live := [1, 2, 3] } ∧
    ∃ m', MessageBoxManager.createMessageBox exampleOps
        { mMessageBoxes := [1, 2, 3],
          mTimers := [{ current := 1, max := 2, messageBox := 1 },
                      { current := 1, max := 2, messageBox := 2 },
                      { current := 1, max := 2, messageBox := 3 }],
          mMessageBoxSpeed := 1, marked := [], live := [1, 2, 3] } "d" 4 = some m' ∧
      m'.mMessageBoxes = [2, 3, 4] :=
  ⟨by decide,
    ((C17_at_most_three_boxes exampleOps
      [ManagerCall.createMessageBox "aa" 1, ManagerCall.createMessageBox "bb" 2,
       ManagerCall.createMessageBox "cc" 3, ManagerCall.onFrame 1]
      { mMessageBoxes := [1, 2, 3],
        mTimers := [{ current := 1, max := 2, messageBox := 1 },
                    { current := 1, max := 2, messageBox := 2 },
                    { current := 1, max := 2, messageBox := 3 }],
        mMessageBoxSpeed := 1, marked := [], live := [1, 2, 3] }
      "d" 0 1 2 3 4 (by decide)).2.2.2.2.2 (by decide)).imp
      (fun _ h => ⟨h.1, h.2.1 rfl⟩)⟩

/-- C18 (the code at the failing input): after four `createMessageBox` calls, with the boxes at
the addresses 1, 2, 3, 4, the box 1 has been deleted and erased from `mMessageBoxes` while its
timer is still in `mTimers`; after a frame in which the timers of the boxes 2, 3, 4 expire the
list `mMessageBoxes` is empty, no box exists and the timer of the deleted box 1 is still
waiting, so that the frame in which it expires writes the flag of a deleted box and inspects
the front of an empty list: that frame has no defined behaviour. -/
theorem C18_timer_outlives_box :
    (runCalls exampleOps
      [ManagerCall.createMessageBox "aaaaaaaaa" 1, ManagerCall.createMessageBox "b" 2,
       ManagerCall.createMessageBox "c" 3, ManagerCall.createMessageBox "d" 4]) =
      some { mMessageBoxes := [2, 3, 4],
             mTimers := [{ current := 0, max := 9, messageBox := 1 },
                         { current := 0, max := 1, messageBox := 2 },
                         { current := 0, max := 1, messageBox := 3 },
                         { current := 0, max := 1, messageBox := 4 }],
             mMessageBoxSpeed := 1, marked := [], live := [2, 3, 4] } ∧
    ¬ (∀ t ∈ [({ current := 0, max := 9, messageBox := 1 } : MessageBoxManagerTimer Int),
              { current := 0, max := 1, messageBox := 2 },
              { current := 0, max := 1, messageBox := 3 },
              { current := 0, max := 1, messageBox := 4 }],
        t.messageBox ∈ [2, 3, 4]) ∧
    (runCalls exampleOps
      [ManagerCall.createMessageBox "aaaaaaaaa" 1, ManagerCall.createMessageBox "b" 2,
       ManagerCall.createMessageBox "c" 3, ManagerCall.createMessageBox "d" 4,
       ManagerCall.onFrame 1]) =
      some { mMessageBoxes := [],
             mTimers := [{ current := 1, max := 9, messageBox := 1 }],
             mMessageBoxSpeed := 1, marked := [], live := [] } ∧
    (runCalls exampleOps
      [ManagerCall.createMessageBox "aaaaaaaaa" 1, ManagerCall.createMessageBox "b" 2,
       ManagerCall.createMessageBox "c" 3, ManagerCall.createMessageBox "d" 4,
       ManagerCall.onFrame 1, ManagerCall.onFrame 8]) = none ∧
    MessageBoxManager.onFrame exampleOps
      { mMessageBoxes := [], mTimers := [{ current := 1, max := 9, messageBox := 1 }],
        mMessageBoxSpeed := 1, marked := [], live := [] } 8 = none := by
  decide

end MWGui
